import Mathlib

/-!
# kitchensink: random-feature ("kitchen sink") model

A shallow embedding of `kitchensink.go`.

Conventions of the embedding.

* `float64` is an arbitrary field `α` (an ordered field where a statement compares
  values, `ℝ` where it needs the real cosine, square root, `π` or an integral);
  `math.Cos`, `math.Sqrt` and `math.Pi` are parameters `cos`, `sqrt`, `pi` of the
  functions that call them.
* Code of other packages (`floats.Dot`, `mat64.Dense`, the `Kernel` interface) is
  modelled from the spec; the batch driver `predHelp.BatchPredict` is a parameter.
* A Go slice is a `List α`; a slice parameter that the code compares with `nil`
  is an `Option (List α)` with `none` for `nil`.
* `int` dimensions are natural numbers.
* A function that may stop with a run-time panic (index out of range, length
  mismatch inside a library call) returns an `Option`, with `none` for the panic.
  The two methods that call `panic` themselves return an `Outcome`, which keeps
  the memory they own at the moment of the panic.
* `for` loops are `forLoop`/`forRange`, element stores are `setAt`.
-/

namespace Kitchensink

variable {α : Type}

/-! ## Go primitives -/

/-- Element store `s[i] = v` on a slice; `none` is the index-out-of-range panic. -/
def setAt (s : List α) (i : Nat) (v : α) : Option (List α) :=
  if i < s.length then some (s.set i v) else none

/-- Go builtin `copy(dst, src)`: the first `min (len dst) (len src)` elements of
`dst` are overwritten by those of `src`; the value is `dst` after the call. -/
def copySlice (dst src : List α) : List α :=
  src.take dst.length ++ dst.drop src.length

/-- The loop `for i := start; i < start + count; i++ { body }` on a state `σ`;
a panic in the body ends the loop with `none`. -/
def forLoop {σ : Type} (body : Nat → σ → Option σ) : Nat → Nat → σ → Option σ
  | _, 0, s => some s
  | i, k + 1, s => (body i s).bind (forLoop body (i + 1) k)

/-- The loop `for i := 0; i < n; i++ { body }` (also `for i := range xs` with
`n = len xs`). -/
def forRange {σ : Type} (n : Nat) (body : Nat → σ → Option σ) (s : σ) : Option σ :=
  forLoop body 0 n s

/-- Result of a method that calls `panic` itself: the memory it owns after a
normal return together with the returned value, or that memory at the panic. -/
inductive Outcome (σ ρ : Type) where
  | returned (state : σ) (value : ρ)
  | panicked (state : σ) (msg : String)

/-- Memory after the call, whether it returned or panicked. -/
def Outcome.state {σ ρ : Type} : Outcome σ ρ → σ
  | .returned s _ => s
  | .panicked s _ => s

/-- Whether the call panicked. -/
def Outcome.isPanic {σ ρ : Type} : Outcome σ ρ → Bool
  | .returned _ _ => false
  | .panicked _ _ => true

/-! ## The external libraries: `gonum/floats` and `gonum/matrix/mat64` -/

section Lib
variable [Field α]

/-- Modelled from the spec: `floats.Dot` of the external gonum library, the dot
product `dot(input, projectionRow)`; it panics when the lengths differ and
otherwise accumulates `sum += val * s2[i]` from the left. -/
def Dot (s1 s2 : List α) : Option α :=
  if s1.length ≠ s2.length then none
  else forRange s1.length (fun i sum => do
    let val ← s1[i]?
    let w ← s2[i]?
    pure (sum + val * w)) 0

end Lib

/-- Modelled from the spec: the dense matrix `mat64.Dense` of the external
gonum library, `rows × cols` reals stored row-major in `data` (element
`(i, j)` at flat index `i * cols + j`). -/
structure Dense (α : Type) where
  rows : Nat
  cols : Nat
  data : List α

/-- Storage of a dense matrix has exactly `rows * cols` entries. -/
def Dense.WF (m : Dense α) : Prop := m.data.length = m.rows * m.cols

instance (m : Dense α) : Decidable m.WF := by
  unfold Dense.WF; infer_instance

/-- Modelled from the spec: `mat64.NewDense(r, c, mat)`. With `mat == nil` a
zero-initialised matrix is allocated; otherwise `mat` becomes the storage, and
the call panics when `r * c != len(mat)`. -/
def NewDense [Zero α] (r c : Nat) (mat : Option (List α)) : Option (Dense α) :=
  match mat with
  | none => some ⟨r, c, List.replicate (r * c) 0⟩
  | some d => if r * c ≠ d.length then none else some ⟨r, c, d⟩

/-- Modelled from the spec: `(*Dense).Dims()`. -/
def Dense.Dims (m : Dense α) : Nat × Nat := (m.rows, m.cols)

/-- Row `r` of the storage: the slice `data[r*cols : r*cols + cols]`. -/
def Dense.row (m : Dense α) (r : Nat) : List α :=
  (m.data.drop (r * m.cols)).take m.cols

/-- Modelled from the spec: `(*Dense).RowView(r)`, the slice of row `r`; it
panics when `r` is not a row index or the slice bounds exceed the storage. -/
def Dense.RowView (m : Dense α) (r : Nat) : Option (List α) :=
  if r < m.rows ∧ r * m.cols + m.cols ≤ m.data.length then some (m.row r) else none

/-- Modelled from the spec: `(*Dense).At(r, c)`, element `(r, c)`, at flat index
`r * cols + c`; it panics on a row or column index out of range. -/
def Dense.At (m : Dense α) (r c : Nat) : Option α :=
  if r < m.rows ∧ c < m.cols then m.data[r * m.cols + c]? else none

/-! ## The model -/

/-- Modelled from the spec: the `Kernel` interface, declared outside this file:
`Generate(nFeatures, inputDim, out)` fills the matrix `out` in place; the
function gives the matrix after the call. -/
structure Kernel (α : Type) where
  Generate : Nat → Nat → Dense α → Dense α

/-- The struct `Sink`. -/
structure Sink (α : Type) where
  kernel : Kernel α
  nFeatures : Nat
  inputDim : Nat
  outputDim : Nat
  features : Dense α
  featureWeights : Dense α
  b : List α

/-- A well-formed `Sink`: projection matrix `nFeatures × inputDim`, phase vector
of length `nFeatures`, weight matrix `nFeatures × outputDim`. -/
def Sink.WF (s : Sink α) : Prop :=
  s.features.rows = s.nFeatures ∧ s.features.cols = s.inputDim ∧ s.features.WF ∧
  s.b.length = s.nFeatures ∧
  s.featureWeights.rows = s.nFeatures ∧ s.featureWeights.cols = s.outputDim ∧
  s.featureWeights.WF

instance (s : Sink α) : Decidable s.WF := by
  unfold Sink.WF; infer_instance

section Model
variable [Field α]

/-- Constructor `NewSink`: `u i` is the value of the `i`-th call of `rand.Float64()` made by
the phase loop. -/
def NewSink (pi : α) (u : Nat → α) (nFeatures : Nat) (kernel : Kernel α)
    (inputDim outputDim : Nat) : Option (Sink α) := do
  let features ← NewDense nFeatures inputDim none
  let features := kernel.Generate nFeatures inputDim features
  let featureWeights ← NewDense nFeatures outputDim none
  let b : List α := List.replicate nFeatures 0
  let b ← forRange b.length (fun i b => setAt b i (u i * pi * 2)) b
  pure { kernel := kernel, nFeatures := nFeatures, inputDim := inputDim,
         outputDim := outputDim, features := features,
         featureWeights := featureWeights, b := b }

def Sink.InputDim (s : Sink α) : Nat := s.inputDim

def Sink.OutputDim (s : Sink α) : Nat := s.outputDim

def Sink.NumFeatures (s : Sink α) : Nat := s.nFeatures

def Sink.GrainSize (_s : Sink α) : Nat := 500

def Sink.NumParameters (s : Sink α) : Nat := s.outputDim * s.nFeatures

/-- Method `RandomizeParameters`: `g i` is the value of the `i`-th call of
`rand.NormFloat64()` made by the loop. -/
def Sink.RandomizeParameters (g : Nat → α) (s : Sink α) : Option (Sink α) := do
  let data ← forRange s.featureWeights.data.length (fun i d => setAt d i (g i))
    s.featureWeights.data
  pure { s with featureWeights := { s.featureWeights with data := data } }

/-- Method `Parameters(p)`: the memory is the model and the caller's buffer (`none` for
`nil`); the value is the returned slice, which is the buffer when one is given. -/
def Sink.Parameters (s : Sink α) (p : Option (List α)) :
    Outcome (Sink α × Option (List α)) (List α) :=
  match p with
  | none =>
    let q := copySlice (List.replicate s.NumParameters 0) s.featureWeights.data
    .returned (s, none) q
  | some buf =>
    if buf.length ≠ s.NumParameters then
      .panicked (s, some buf) "sink: parameter size mismatch"
    else
      let q := copySlice buf s.featureWeights.data
      .returned (s, some q) q

/-- Method `SetParameters(p)`: the memory is the model and the caller's slice `p`. -/
def Sink.SetParameters (s : Sink α) (p : List α) : Outcome (Sink α × List α) Unit :=
  if p.length ≠ s.NumParameters then
    .panicked (s, p) "sink: parameter size mismatch"
  else
    .returned
      ({ s with featureWeights :=
          { s.featureWeights with data := copySlice s.featureWeights.data p } }, p) ()

/-- Function `computeZ`: the value of one feature. -/
def computeZ (cos : α → α) (featurizedInput feature : List α) (b sqrt2OverD : α) :
    Option α := do
  let dot ← Dot featurizedInput feature
  pure (sqrt2OverD * cos (dot + b))

/-- Function `predict`: the value is the slice `output` after the call. -/
def predict (cos sqrt : α → α) (input : List α) (features : Dense α) (b : List α)
    (featureWeights : Dense α) (output : List α) : Option (List α) := do
  let output ← forRange output.length (fun i o => setAt o i 0) output
  let nFeatures := features.Dims.1
  let outputDim := featureWeights.Dims.2
  let sqrt2OverD := sqrt (2 / (nFeatures : α))
  forRange nFeatures (fun i o => do
    let row ← features.RowView i
    let bi ← b[i]?
    let z ← computeZ cos input row bi sqrt2OverD
    forRange outputDim (fun j o => do
      let w ← featureWeights.At i j
      let x ← o[j]?
      setAt o j (x + z * w)) o) output

/-- What `Predict` gives back: the returned slice (`none` for `nil`), the
returned error (`none` for `nil`), and the caller's buffer after the call
(`none` when `nil` was passed). -/
structure PredictRet (α : Type) where
  value : Option (List α)
  err : Option String
  buf : Option (List α)

/-- Method `Sink.Predict`. -/
def Sink.Predict (cos sqrt : α → α) (sink : Sink α) (input : List α)
    (output : Option (List α)) : Option (PredictRet α) :=
  if input.length ≠ sink.inputDim then
    some ⟨none, some "input dimension mismatch", output⟩
  else
    match output with
    | none => do
      let o ← predict cos sqrt input sink.features sink.b sink.featureWeights
        (List.replicate sink.outputDim 0)
      pure ⟨some o, none, none⟩
    | some out =>
      if out.length ≠ sink.outputDim then
        some ⟨none, some "output dimension mismatch", some out⟩
      else do
        let o ← predict cos sqrt input sink.features sink.b sink.featureWeights out
        pure ⟨some o, none, some o⟩

/-- Function `predictFeaturized`: the value is the slice `output` after the call. -/
def predictFeaturized (featurizedInput : List α) (featureWeights : Dense α)
    (output : List α) : Option (List α) := do
  let output ← forRange output.length (fun i o => setAt o i 0) output
  forRange featurizedInput.length (fun j o => do
    let zval ← featurizedInput[j]?
    let row ← featureWeights.RowView j
    forRange row.length (fun i o => do
      let weight ← row[i]?
      let x ← o[i]?
      setAt o i (x + weight * zval)) o) output

/-- Method `Sink.Featurize`: the value is the slice `feature` after the call. -/
def Sink.Featurize (cos sqrt : α → α) (sink : Sink α) (input feature : List α) :
    Option (List α) :=
  let sqrt2OverD := sqrt (2 / (sink.nFeatures : α))
  forRange feature.length (fun i f => do
    let row ← sink.features.RowView i
    let bi ← sink.b[i]?
    let z ← computeZ cos input row bi sqrt2OverD
    setAt f i z) feature

/-- The struct `lossDerivWrapper`. -/
structure lossDerivWrapper where
  nFeatures : Nat
  outputDim : Nat
deriving DecidableEq

/-- Method `Sink.NewLossDeriver`. -/
def Sink.NewLossDeriver (s : Sink α) : lossDerivWrapper :=
  { nFeatures := s.nFeatures, outputDim := s.outputDim }

/-- Method `lossDerivWrapper.Predict`: the value is the slice `predOutput` after the
call; `parameters` is `none` for a `nil` slice. -/
def lossDerivWrapper.Predict (d : lossDerivWrapper) (parameters : Option (List α))
    (featurizedInput predOutput : List α) : Option (List α) := do
  let featureWeights ← NewDense d.nFeatures d.outputDim parameters
  predictFeaturized featurizedInput featureWeights predOutput

/-- Function `deriv`: the value is the slice `dLossDWeight` after the call. -/
def deriv (z dLossDPred dLossDWeight : List α) : Option (List α) :=
  let nOutput := dLossDPred.length
  forRange z.length (fun i w => do
    let zVal ← z[i]?
    forRange nOutput (fun j w => do
      let g ← dLossDPred[j]?
      setAt w (i * nOutput + j) (zVal * g)) w) dLossDWeight

/-- Method `lossDerivWrapper.Deriv`: the value is the slice `dLossDWeight` after the
call; the other slices are not written. -/
def lossDerivWrapper.Deriv (_d : lossDerivWrapper) (_parameters : Option (List α))
    (featurizedInput _predOutput dLossDPred dLossDWeight : List α) : Option (List α) :=
  deriv featurizedInput dLossDPred dLossDWeight

/-! ## The model as a state machine -/

/-- A call of one of the methods of the model that a client may make after
construction, with its arguments. -/
inductive Op (α : Type) where
  | SetParameters (p : List α)
  | RandomizeParameters (g : Nat → α)
  | Parameters (p : Option (List α))
  | Predict (input : List α) (output : Option (List α))
  | Featurize (input feature : List α)

/-- The model after one call. `SetParameters` and `RandomizeParameters` write the
weight storage; `Parameters` gives back the model in its memory; `Predict` and
`Featurize` write only slices of the caller. After a panic the model is as it was at
the panic. -/
def Sink.exec (s : Sink α) : Op α → Sink α
  | .SetParameters p => (s.SetParameters p).state.1
  | .RandomizeParameters g => (s.RandomizeParameters g).getD s
  | .Parameters p => (s.Parameters p).state.1
  | .Predict _ _ => s
  | .Featurize _ _ => s

/-- The model after a sequence of calls. -/
def Sink.run (s : Sink α) (ops : List (Op α)) : Sink α :=
  ops.foldl Sink.exec s

/-! ## Batch prediction -/

/-- The struct `batchPredictor`. -/
structure batchPredictor (α : Type) where
  features : Dense α
  featureWeights : Dense α
  b : List α

/-- Method `Sink.PredictBatch`. The batch driver `predHelp.BatchPredict` belongs to
another package and is the parameter `BatchPredict`; `ι`, `ο` and `ρ` are the types
of the input rows, the output rows and the result of the driver. -/
def Sink.PredictBatch {ι ο ρ : Type}
    (BatchPredict : batchPredictor α → ι → ο → Nat → Nat → Nat → ρ)
    (sink : Sink α) (inputs : ι) (outputs : ο) : ρ :=
  let batch : batchPredictor α :=
    { features := sink.features, featureWeights := sink.featureWeights, b := sink.b }
  BatchPredict batch inputs outputs sink.inputDim sink.outputDim sink.GrainSize

/-- Method `batchPredictor.NewPredictor`. -/
def batchPredictor.NewPredictor (b : batchPredictor α) : batchPredictor α := b

/-- Method `batchPredictor.Predict`: the value is the slice `output` after the call. -/
def batchPredictor.Predict (cos sqrt : α → α) (b : batchPredictor α)
    (input output : List α) : Option (List α) :=
  predict cos sqrt input b.features b.b b.featureWeights output

/-! ## Calls on explicit memory -/

/-- Method `Sink.Predict` with the memory of the call made explicit: the model and the
input slice after the call, and what the call gives back. No store in `Predict` or
`predict` has the model or `input` as its target. -/
def Sink.PredictMem (cos sqrt : α → α) (sink : Sink α) (input : List α)
    (output : Option (List α)) : Option (Sink α × List α × PredictRet α) := do
  let r ← sink.Predict cos sqrt input output
  pure (sink, input, r)

/-- Method `Sink.Featurize` with the memory of the call made explicit: the model, the
input slice and the slice `feature` after the call. The only store in `Featurize`
has `feature[i]` as its target. -/
def Sink.FeaturizeMem (cos sqrt : α → α) (sink : Sink α) (input feature : List α) :
    Option (Sink α × List α × List α) := do
  let f ← sink.Featurize cos sqrt input feature
  pure (sink, input, f)

/-- The five slices passed to `lossDerivWrapper.Deriv`. -/
structure DerivArgs (α : Type) where
  parameters : Option (List α)
  featurizedInput : List α
  predOutput : List α
  dLossDPred : List α
  dLossDWeight : List α

/-- Method `lossDerivWrapper.Deriv` with the memory of the call made explicit: the five
slices after the call. The only store in `Deriv` and `deriv` has
`dLossDWeight[i*nOutput+j]` as its target. -/
def lossDerivWrapper.DerivMem (d : lossDerivWrapper) (m : DerivArgs α) :
    Option (DerivArgs α) := do
  let w ← d.Deriv m.parameters m.featurizedInput m.predOutput m.dLossDPred m.dLossDWeight
  pure { m with dLossDWeight := w }

end Model


/-! ## Definitions used in the statements -/

/-- The list `[f 0, f 1, ..., f (n-1)]`: a slice of length `n` given by its entries. -/
def vec (n : Nat) (f : Nat → α) : List α := (List.range n).map f

section SpecDefs
variable [Field α]

/-- The dot product as the spec writes it, `dot(x, w)`: the sum of the products
of the entries. -/
def dotSpec (x w : List α) : α :=
  Finset.sum (Finset.range x.length) (fun k => x.getD k 0 * w.getD k 0)

/-- Feature `i` as the spec writes it:
`sqrt(2 / nFeatures) * cos(dot(input, projections[i]) + phase[i])`, where
`projections[i]` is row `i` of the projection matrix. -/
def featureSpec (cos sqrt : α → α) (nFeatures : Nat) (projections : Dense α)
    (phase : List α) (input : List α) (i : Nat) : α :=
  sqrt (2 / (nFeatures : α)) * cos (dotSpec input (projections.row i) + phase.getD i 0)

/-- Dimensions and size of the weight storage fixed by the constructor. -/
def DimInv (nFeatures inputDim outputDim : Nat) (s : Sink α) : Prop :=
  s.nFeatures = nFeatures ∧ s.inputDim = inputDim ∧ s.outputDim = outputDim ∧
  s.featureWeights.data.length = nFeatures * outputDim

end SpecDefs

/-- A well-formed model over the rationals, used to instantiate the statements:
two features, one input, one output. -/
def demoSink : Sink ℚ :=
  { kernel := ⟨fun _ _ m => m⟩, nFeatures := 2, inputDim := 1, outputDim := 1,
    features := ⟨2, 1, [1, 0]⟩, featureWeights := ⟨2, 1, [1, 1]⟩, b := [0, 3] }

/-! ## Slices given by their entries -/

theorem vec_length (n : Nat) (f : Nat → α) : (vec n f).length = n := by
  simp [vec]

theorem vec_getElem? (n : Nat) (f : Nat → α) (k : Nat) :
    (vec n f)[k]? = if k < n then some (f k) else none := by
  unfold vec
  by_cases h : k < n
  · simp [h, List.getElem?_range]
  · simp [h]
    omega

theorem vec_getD [Zero α] (n : Nat) (f : Nat → α) (k : Nat) (h : k < n) :
    (vec n f).getD k 0 = f k := by
  simp [List.getD_eq_getElem?_getD, vec_getElem?, h]

theorem vec_congr (n : Nat) (f g : Nat → α) (h : ∀ k, k < n → f k = g k) :
    vec n f = vec n g := by
  unfold vec
  apply List.map_congr_left
  intro k hk
  exact h k (List.mem_range.mp hk)

theorem vec_of_list [Zero α] (l : List α) : l = vec l.length (fun k => l.getD k 0) := by
  apply List.ext_getElem?
  intro k
  rw [vec_getElem?]
  by_cases h : k < l.length
  · simp [h, List.getD_eq_getElem?_getD, List.getElem?_eq_getElem h]
  · simp [h]
    omega

theorem vec_set (n : Nat) (f : Nat → α) (j : Nat) (v : α) :
    (vec n f).set j v = vec n (fun k => if k = j then v else f k) := by
  apply List.ext_getElem?
  intro k
  rw [List.getElem?_set, vec_getElem?, vec_getElem?, vec_length]
  by_cases hk : k < n <;> by_cases hj : j = k
  · subst hj; simp [hk]
  · have : ¬ k = j := fun h => hj h.symm
    simp [hk, hj, this]
  · subst hj; simp [hk]
  · simp [hk, hj]

theorem setAt_vec (n : Nat) (f : Nat → α) (j : Nat) (v : α) (h : j < n) :
    setAt (vec n f) j v = some (vec n (fun k => if k = j then v else f k)) := by
  simp [setAt, vec_length, h, vec_set]

theorem forLoop_congr {σ : Type} (body body' : Nat → σ → Option σ) :
    ∀ (count start : Nat) (s : σ),
      (∀ i t, start ≤ i → i < start + count → body i t = body' i t) →
      forLoop body start count s = forLoop body' start count s := by
  intro count
  induction count with
  | zero => intro start s _; rfl
  | succ k ih =>
    intro start s h
    simp only [forLoop]
    rw [h start s (le_refl _) (by omega)]
    cases hb : body' start s with
    | none => rfl
    | some t =>
      simp only [Option.bind]
      exact ih (start + 1) t (fun i u h1 h2 => h i u (by omega) (by omega))

theorem forLoop_inv {σ : Type} (P : Nat → σ → Prop) (body : Nat → σ → Option σ) :
    ∀ (count start : Nat) (s : σ), P start s →
      (∀ i t, start ≤ i → i < start + count → P i t →
        ∃ t', body i t = some t' ∧ P (i + 1) t') →
      ∃ s', forLoop body start count s = some s' ∧ P (start + count) s' := by
  intro count
  induction count with
  | zero => intro start s h0 _; exact ⟨s, rfl, h0⟩
  | succ k ih =>
    intro start s h0 hstep
    obtain ⟨t, hb, ht⟩ := hstep start s (le_refl _) (by omega) h0
    obtain ⟨s', hs', hP⟩ := ih (start + 1) t ht
      (fun i u h1 h2 hu => hstep i u (by omega) (by omega) hu)
    refine ⟨s', ?_, ?_⟩
    · simp only [forLoop, hb, Option.bind]
      exact hs'
    · have : start + (k + 1) = start + 1 + k := by omega
      rw [this]; exact hP

theorem forLoop_setAt [Zero α] (g : Nat → α → α) (n base : Nat) :
    ∀ (count start : Nat) (f : Nat → α), base + start + count ≤ n →
      forLoop (fun j o => setAt o (base + j) (g j (o.getD (base + j) 0))) start count (vec n f)
        = some (vec n (fun k =>
            if base + start ≤ k ∧ k < base + start + count then g (k - base) (f k) else f k)) := by
  intro count
  induction count with
  | zero =>
    intro start f _
    simp only [forLoop]
    congr 1
    apply vec_congr
    intro k _
    have : ¬ (base + start ≤ k ∧ k < base + start) := by omega
    simp [this]
  | succ c ih =>
    intro start f h
    have hlt : base + start < n := by omega
    rw [forLoop, vec_getD n f _ hlt, setAt_vec n f _ _ hlt]
    simp only [Option.bind]
    rw [ih (start + 1) _ (by omega)]
    congr 1
    apply vec_congr
    intro k _
    by_cases h1 : k = base + start
    · subst h1
      have e1 : ¬ (base + (start + 1) ≤ base + start ∧ base + start < base + (start + 1) + c) := by
        omega
      have e2 : (base + start ≤ base + start ∧ base + start < base + start + (c + 1)) := by
        omega
      simp [e1, e2]
    · by_cases h2 : base + (start + 1) ≤ k ∧ k < base + (start + 1) + c
      · have e2 : (base + start ≤ k ∧ k < base + start + (c + 1)) := by omega
        simp [h1, h2, e2]
      · have e2 : ¬ (base + start ≤ k ∧ k < base + start + (c + 1)) := by omega
        simp [h1, h2, e2]

/-! ## Loop rules and the library functions -/

theorem Dense.row_length (m : Dense α) (r : Nat) (hwf : m.WF) (hr : r < m.rows) :
    (m.row r).length = m.cols := by
  unfold Dense.WF at hwf
  have : (r + 1) * m.cols ≤ m.rows * m.cols := Nat.mul_le_mul_right _ hr
  have e : (r + 1) * m.cols = r * m.cols + m.cols := by ring
  simp [Dense.row]
  omega

theorem Dense.RowView_eq (m : Dense α) (r : Nat) (hwf : m.WF) (hr : r < m.rows) :
    m.RowView r = some (m.row r) := by
  unfold Dense.WF at hwf
  have : (r + 1) * m.cols ≤ m.rows * m.cols := Nat.mul_le_mul_right _ hr
  have e : (r + 1) * m.cols = r * m.cols + m.cols := by ring
  have : r * m.cols + m.cols ≤ m.data.length := by omega
  simp [Dense.RowView, hr, this]

theorem copySlice_same_length (dst src : List α) (h : dst.length = src.length) :
    copySlice dst src = src := by
  unfold copySlice
  rw [h, List.take_length, List.drop_eq_nil_of_le (le_of_eq h), List.append_nil]

theorem copySlice_length (dst src : List α) : (copySlice dst src).length = dst.length := by
  unfold copySlice
  simp
  omega

theorem SetParameters_eq (s : Sink α) (p : List α) (hwf : s.WF)
    (hp : p.length = s.nFeatures * s.outputDim) :
    s.SetParameters p
      = .returned ({ s with featureWeights := { s.featureWeights with data := p } }, p) () := by
  obtain ⟨_, _, _, _, hwr, hwc, hww⟩ := hwf
  unfold Dense.WF at hww
  unfold Sink.SetParameters
  have h1 : p.length = s.NumParameters := by
    rw [hp, Sink.NumParameters, Nat.mul_comm]
  have h2 : s.featureWeights.data.length = p.length := by
    rw [hww, hwr, hwc, hp]
  simp only [h1, ne_eq, not_true_eq_false, if_false]
  rw [copySlice_same_length _ _ h2]

section LoopRules
variable [Field α]

theorem getElem?_eq_some_getD (l : List α) (k : Nat) (h : k < l.length) :
    l[k]? = some (l.getD k 0) := by
  simp [List.getD_eq_getElem?_getD, List.getElem?_eq_getElem h]

theorem forRange_fill (h : Nat → α) (l : List α) :
    forRange l.length (fun i o => setAt o i (h i)) l = some (vec l.length h) := by
  unfold forRange
  rw [forLoop_congr _ (fun j o => setAt o (0 + j) ((fun k _ => h k) j (o.getD (0 + j) 0)))
    l.length 0 l (by intro i t _ _; simp)]
  have key := forLoop_setAt (fun k (_ : α) => h k) l.length 0 l.length 0
    (fun k => l.getD k 0) (by omega)
  rw [← vec_of_list l] at key
  rw [key]
  congr 1
  apply vec_congr
  intro k hk
  simp [hk]

theorem forRange_modify (g : Nat → α → α) (n : Nat) (f : Nat → α) :
    forRange n (fun j o => (o[j]?).bind (fun x => setAt o j (g j x))) (vec n f)
      = some (vec n (fun k => g k (f k))) := by
  unfold forRange
  rw [forLoop_congr _ (fun j o => setAt o (0 + j) (g j (o.getD (0 + j) 0))) n 0 _ ?_]
  · rw [forLoop_setAt g n 0 n 0 f (by omega)]
    congr 1
    apply vec_congr
    intro k hk
    simp [hk]
  · intro i t _ _
    by_cases hi : i < t.length
    · rw [getElem?_eq_some_getD t i hi]
      simp only [Option.bind, Nat.zero_add]
    · have : t[i]? = none := by simp; omega
      simp [this, setAt, hi]

theorem Dot_eq (s1 s2 : List α) (h : s1.length = s2.length) :
    Dot s1 s2 = some (dotSpec s1 s2) := by
  unfold Dot forRange dotSpec
  simp only [h, ne_eq, not_true_eq_false, if_false]
  obtain ⟨r, hr, hP⟩ := forLoop_inv
    (fun i (sum : α) => sum = Finset.sum (Finset.range i) (fun k => s1.getD k 0 * s2.getD k 0))
    (fun i sum => do
      let val ← s1[i]?
      let w ← s2[i]?
      pure (sum + val * w)) s2.length 0 0 (by simp)
    (by
      intro i t _ hi ht
      have h1 : i < s1.length := by omega
      have h2 : i < s2.length := by omega
      refine ⟨t + s1.getD i 0 * s2.getD i 0, ?_, ?_⟩
      · beta_reduce
        rw [getElem?_eq_some_getD s1 i h1, getElem?_eq_some_getD s2 i h2]
        rfl
      · show _ = Finset.sum (Finset.range (i + 1)) _
        rw [Finset.sum_range_succ, ht])
  rw [hr, hP]
  simp

theorem Dense.row_getD (m : Dense α) (r c : Nat) (hc : c < m.cols) :
    (m.row r).getD c 0 = m.data.getD (r * m.cols + c) 0 := by
  simp [Dense.row, List.getD_eq_getElem?_getD, List.getElem?_take, hc, List.getElem?_drop]

theorem Dense.At_eq (m : Dense α) (r c : Nat) (hwf : m.WF) (hr : r < m.rows)
    (hc : c < m.cols) : m.At r c = some (m.data.getD (r * m.cols + c) 0) := by
  unfold Dense.WF at hwf
  have : (r + 1) * m.cols ≤ m.rows * m.cols := Nat.mul_le_mul_right _ hr
  have e : (r + 1) * m.cols = r * m.cols + m.cols := by ring
  have hlt : r * m.cols + c < m.data.length := by omega
  rw [← getElem?_eq_some_getD _ _ hlt]
  simp [Dense.At, hr, hc]

end LoopRules

/-! ## Closed forms of the loops -/

section ClosedForms
variable [Field α]

theorem computeZ_eq (cos : α → α) (x w : List α) (b c : α) (h : x.length = w.length) :
    computeZ cos x w b c = some (c * cos (dotSpec x w + b)) := by
  unfold computeZ
  rw [Dot_eq x w h]
  rfl

/-- Closed form of the loop of `Featurize` on a projection matrix with
`input.length` columns and at least `feature.length` rows and phases. -/
theorem Featurize_eq (cos sqrt : α → α) (s : Sink α) (input feature : List α)
    (hwf : s.WF) (hin : input.length = s.inputDim) (hlen : feature.length = s.nFeatures) :
    s.Featurize cos sqrt input feature
      = some (vec s.nFeatures (featureSpec cos sqrt s.nFeatures s.features s.b input)) := by
  obtain ⟨hfr, hfc, hfw, hb, _, _, _⟩ := hwf
  unfold Sink.Featurize forRange
  rw [forLoop_congr _
    (fun i f => setAt f i (featureSpec cos sqrt s.nFeatures s.features s.b input i))
    feature.length 0 feature ?_]
  · have := forRange_fill (featureSpec cos sqrt s.nFeatures s.features s.b input) feature
    unfold forRange at this
    rw [this, hlen]
  · intro i t _ hi
    have hi' : i < s.features.rows := by omega
    have hrow : input.length = (s.features.row i).length := by
      rw [Dense.row_length _ _ hfw hi', hfc, hin]
    rw [Dense.RowView_eq _ _ hfw hi', getElem?_eq_some_getD s.b i (by omega)]
    simp only [Option.bind_eq_bind, Option.some_bind]
    rw [computeZ_eq cos _ _ _ _ hrow]
    rfl

theorem predict_eq (cos sqrt : α → α) (input : List α) (features : Dense α) (b : List α)
    (W : Dense α) (output : List α)
    (hfw : features.WF) (hfc : features.cols = input.length) (hb : b.length = features.rows)
    (hww : W.WF) (hwr : W.rows = features.rows) (ho : output.length = W.cols) :
    predict cos sqrt input features b W output
      = some (vec W.cols (fun j => Finset.sum (Finset.range features.rows) (fun i =>
          featureSpec cos sqrt features.rows features b input i
            * W.data.getD (i * W.cols + j) 0))) := by
  unfold predict
  rw [forRange_fill (fun _ => (0 : α)) output]
  simp only [Option.bind_eq_bind, Option.some_bind, Dense.Dims]
  unfold forRange
  obtain ⟨r, hr, hP⟩ := forLoop_inv
    (fun i (o : List α) => o = vec W.cols (fun j => Finset.sum (Finset.range i) (fun i' =>
          featureSpec cos sqrt features.rows features b input i'
            * W.data.getD (i' * W.cols + j) 0)))
    (fun i o => (features.RowView i).bind fun row => b[i]?.bind fun bi =>
      (computeZ cos input row bi (sqrt (2 / (features.rows : α)))).bind fun z =>
        forLoop (fun j o => (W.At i j).bind fun w => o[j]?.bind fun x => setAt o j (x + z * w))
          0 W.cols o)
    features.rows 0 (vec output.length (fun _ => (0 : α)))
    (by simp [ho])
    (by
      intro i t _ hi ht
      have hi' : i < features.rows := by omega
      have hrow : input.length = (features.row i).length := by
        rw [Dense.row_length _ _ hfw hi', hfc]
      beta_reduce
      rw [Dense.RowView_eq _ _ hfw hi', getElem?_eq_some_getD b i (by omega)]
      simp only [Option.some_bind]
      rw [computeZ_eq cos _ _ _ _ hrow]
      simp only [Option.some_bind]
      rw [forLoop_congr _ (fun j o => (o[j]?).bind (fun x => setAt o j
        ((fun j x => x + featureSpec cos sqrt features.rows features b input i
            * W.data.getD (i * W.cols + j) 0) j x))) W.cols 0 t ?_]
      · have := forRange_modify (fun j x => x + featureSpec cos sqrt features.rows features b input i
            * W.data.getD (i * W.cols + j) 0) W.cols (fun j => Finset.sum (Finset.range i) (fun i' =>
          featureSpec cos sqrt features.rows features b input i'
            * W.data.getD (i' * W.cols + j) 0))
        unfold forRange at this
        rw [ht, this]
        refine ⟨_, rfl, ?_⟩
        apply vec_congr
        intro k _
        rw [Finset.sum_range_succ]
      · intro j u _ hj
        rw [Dense.At_eq W i j hww (by omega) (by omega)]
        rfl)
  rw [hr, hP]
  simp

theorem predictFeaturized_eq (z : List α) (W : Dense α) (output : List α)
    (hww : W.WF) (hz : z.length = W.rows) (ho : output.length = W.cols) :
    predictFeaturized z W output
      = some (vec W.cols (fun m => Finset.sum (Finset.range W.rows) (fun k =>
          W.data.getD (k * W.cols + m) 0 * z.getD k 0))) := by
  unfold predictFeaturized
  rw [forRange_fill (fun _ => (0 : α)) output]
  simp only [Option.bind_eq_bind, Option.some_bind]
  unfold forRange
  obtain ⟨r, hr, hP⟩ := forLoop_inv
    (fun i (o : List α) => o = vec W.cols (fun m => Finset.sum (Finset.range i) (fun k =>
          W.data.getD (k * W.cols + m) 0 * z.getD k 0)))
    (fun j o => z[j]?.bind fun zval => (W.RowView j).bind fun row =>
        forLoop (fun i o => row[i]?.bind fun weight => o[i]?.bind fun x =>
          setAt o i (x + weight * zval)) 0 row.length o)
    z.length 0 (vec output.length (fun _ => (0 : α)))
    (by simp [ho])
    (by
      intro i t _ hi ht
      have hi' : i < W.rows := by omega
      beta_reduce
      rw [Dense.RowView_eq _ _ hww hi', getElem?_eq_some_getD z i (by omega)]
      simp only [Option.some_bind]
      rw [Dense.row_length _ _ hww hi']
      rw [forLoop_congr _ (fun j o => (o[j]?).bind (fun x => setAt o j
        ((fun j x => x + W.data.getD (i * W.cols + j) 0 * z.getD i 0) j x))) W.cols 0 t ?_]
      · have := forRange_modify (fun j x => x + W.data.getD (i * W.cols + j) 0 * z.getD i 0)
          W.cols (fun m => Finset.sum (Finset.range i) (fun k =>
            W.data.getD (k * W.cols + m) 0 * z.getD k 0))
        unfold forRange at this
        rw [ht, this]
        refine ⟨_, rfl, ?_⟩
        apply vec_congr
        intro k _
        rw [Finset.sum_range_succ]
      · intro j u _ hj
        have hj' : j < (W.row i).length := by
          rw [Dense.row_length _ _ hww hi']; omega
        rw [getElem?_eq_some_getD _ j hj', Dense.row_getD W i j (by omega)]
        rfl)
  rw [hr, hP, Nat.zero_add, hz]

theorem div_mod_of_block (i n k : Nat) (h1 : i * n ≤ k) (h2 : k < i * n + n) :
    k / n = i ∧ k % n = k - i * n := by
  have hd : k / n = i := by
    apply Nat.div_eq_of_lt_le h1
    have : (i + 1) * n = i * n + n := by ring
    omega
  refine ⟨hd, ?_⟩
  have := Nat.div_add_mod k n
  rw [hd, Nat.mul_comm] at this
  omega

theorem deriv_eq (z g w : List α) (hlen : z.length * g.length ≤ w.length) :
    deriv z g w = some (vec w.length (fun k =>
      if k < z.length * g.length then z.getD (k / g.length) 0 * g.getD (k % g.length) 0
      else w.getD k 0)) := by
  unfold deriv forRange
  simp only [Option.bind_eq_bind]
  obtain ⟨r, hr, hP⟩ := forLoop_inv
    (fun i (o : List α) => o = vec w.length (fun k =>
      if k < i * g.length then z.getD (k / g.length) 0 * g.getD (k % g.length) 0
      else w.getD k 0))
    (fun i w => z[i]?.bind fun zVal =>
        forLoop (fun j w => g[j]?.bind fun gj => setAt w (i * g.length + j) (zVal * gj))
          0 g.length w)
    z.length 0 w
    (by
      beta_reduce
      conv_lhs => rw [vec_of_list w]
      apply vec_congr
      intro k _
      simp)
    (by
      intro i t _ hi ht
      have hi' : i < z.length := by omega
      have hle : (i + 1) * g.length ≤ z.length * g.length := Nat.mul_le_mul_right _ hi'
      have he : (i + 1) * g.length = i * g.length + g.length := by ring
      beta_reduce
      rw [getElem?_eq_some_getD z i hi']
      simp only [Option.some_bind]
      rw [forLoop_congr _ (fun j o => setAt o (i * g.length + j)
        ((fun j (_ : α) => z.getD i 0 * g.getD j 0) j (o.getD (i * g.length + j) 0)))
        g.length 0 t ?_]
      · rw [ht, forLoop_setAt (fun j (_ : α) => z.getD i 0 * g.getD j 0) w.length
          (i * g.length) g.length 0 _ (by omega)]
        refine ⟨_, rfl, ?_⟩
        apply vec_congr
        intro k _
        by_cases hk : i * g.length + 0 ≤ k ∧ k < i * g.length + 0 + g.length
        · obtain ⟨hd, hm⟩ := div_mod_of_block i g.length k (by omega) (by omega)
          have : k < (i + 1) * g.length := by omega
          simp only [hk, and_self, if_true, this, hd, hm]
        · by_cases hk2 : k < i * g.length
          · have : k < (i + 1) * g.length := by omega
            simp only [hk, if_false, hk2, if_true, this]
          · have : ¬ k < (i + 1) * g.length := by omega
            simp only [hk, if_false, hk2, this]
      · intro j u _ hj
        rw [getElem?_eq_some_getD g j (by omega)]
        rfl)
  rw [hr, hP, Nat.zero_add]

end ClosedForms

/-! ## The claims -/

section Claims
variable [Field α]

theorem Parameters_nil_eq (s : Sink α) (hwf : s.WF) :
    s.Parameters none = .returned (s, none) s.featureWeights.data := by
  obtain ⟨_, _, _, _, hwr, hwc, hww⟩ := hwf
  unfold Dense.WF at hww
  unfold Sink.Parameters
  simp only
  rw [copySlice_same_length]
  simp [Sink.NumParameters, hww, hwr, hwc, Nat.mul_comm]

theorem Predict_eq (cos sqrt : α → α) (s : Sink α) (input : List α)
    (output : Option (List α)) (hwf : s.WF) (hin : input.length = s.inputDim)
    (hout : ∀ o, output = some o → o.length = s.outputDim) :
    s.Predict cos sqrt input output
      = some ⟨some (vec s.outputDim (fun j => Finset.sum (Finset.range s.nFeatures) (fun i =>
          featureSpec cos sqrt s.nFeatures s.features s.b input i
            * s.featureWeights.data.getD (i * s.outputDim + j) 0))), none,
          output.map (fun _ => vec s.outputDim (fun j =>
            Finset.sum (Finset.range s.nFeatures) (fun i =>
              featureSpec cos sqrt s.nFeatures s.features s.b input i
                * s.featureWeights.data.getD (i * s.outputDim + j) 0)))⟩ := by
  obtain ⟨hfr, hfc, hfw, hb, hwr, hwc, hww⟩ := hwf
  unfold Sink.Predict
  simp only [hin, ne_eq, not_true_eq_false, if_false]
  cases output with
  | none =>
    simp only
    rw [predict_eq cos sqrt input s.features s.b s.featureWeights _ hfw (by omega) (by omega)
      hww (by omega) (by simp [hwc])]
    simp [hfr, hwc]
  | some o =>
    have ho := hout o rfl
    simp only [ho, ne_eq, not_true_eq_false, if_false]
    rw [predict_eq cos sqrt input s.features s.b s.featureWeights _ hfw (by omega) (by omega)
      hww (by omega) (by omega)]
    simp [hfr, hwc]

/-- C1: on a well-formed Sink and an input of length `inputDim`, the vector returned by
`Predict(input, nil)` is the vector that the loss deriver's `Predict` writes when it is
given `Parameters(nil)` and the feature vector written by `Featurize`. -/
theorem Predict_agrees_with_featurized_path (cos sqrt : α → α) (s : Sink α)
    (input z0 out0 : List α) (hwf : s.WF) (hin : input.length = s.inputDim)
    (hz : z0.length = s.nFeatures) (ho : out0.length = s.outputDim) :
    ∃ v parameters z,
      s.Predict cos sqrt input none = some ⟨some v, none, none⟩ ∧
      s.Parameters none = .returned (s, none) parameters ∧
      s.Featurize cos sqrt input z0 = some z ∧
      s.NewLossDeriver.Predict (some parameters) z out0 = some v := by
  have hwf' := hwf
  obtain ⟨hfr, hfc, hfw, hb, hwr, hwc, hww⟩ := hwf'
  unfold Dense.WF at hww
  refine ⟨vec s.outputDim (fun j => Finset.sum (Finset.range s.nFeatures) (fun i =>
      featureSpec cos sqrt s.nFeatures s.features s.b input i
        * s.featureWeights.data.getD (i * s.outputDim + j) 0)), _, _,
    ?_, Parameters_nil_eq s hwf, Featurize_eq cos sqrt s input z0 hwf hin hz, ?_⟩
  · rw [Predict_eq cos sqrt s input none hwf hin (by intro o h; cases h)]
    rfl
  · unfold lossDerivWrapper.Predict NewDense Sink.NewLossDeriver
    have hlen : s.nFeatures * s.outputDim = s.featureWeights.data.length := by
      rw [hww, hwr, hwc]
    simp only [hlen, ne_eq, not_true_eq_false, if_false, Option.bind_eq_bind, Option.some_bind]
    rw [predictFeaturized_eq _ _ _ (by simp [Dense.WF, hlen]) (by simp [vec_length])
      (by simp [ho])]
    simp only
    congr 1
    apply vec_congr
    intro j _
    apply Finset.sum_congr rfl
    intro i hi
    rw [vec_getD _ _ _ (Finset.mem_range.mp hi), mul_comm]

/-- C2: on a well-formed Sink, after `SetParameters(p)` with `p` of length
`nFeatures*outputDim`, `Predict` on an input of length `inputDim` succeeds, for a `nil`
output as for any supplied buffer of length `outputDim`, with one and the same vector `v`,
whose entry `j` is the sum over the features `i` of
`sqrt(2/nFeatures) * cos(dot(input, projections[i]) + phase[i]) * p[i*outputDim + j]`. -/
theorem Predict_after_SetParameters (cos sqrt : α → α) (s : Sink α) (p input : List α)
    (hwf : s.WF) (hp : p.length = s.nFeatures * s.outputDim)
    (hin : input.length = s.inputDim) :
    ∃ s' v,
      s.SetParameters p = .returned (s', p) () ∧
      v.length = s.outputDim ∧
      (∀ j, j < s.outputDim → v[j]? = some (Finset.sum (Finset.range s.nFeatures) (fun i =>
        sqrt (2 / (s.nFeatures : α)) * cos (dotSpec input (s.features.row i) + s.b.getD i 0)
          * p.getD (i * s.outputDim + j) 0))) ∧
      (∀ output : Option (List α), (∀ o, output = some o → o.length = s.outputDim) →
        s'.Predict cos sqrt input output = some ⟨some v, none, output.map (fun _ => v)⟩) := by
  have hwf' : ({ s with featureWeights := { s.featureWeights with data := p } } : Sink α).WF := by
    obtain ⟨hfr, hfc, hfw, hb, hwr, hwc, hww⟩ := hwf
    refine ⟨hfr, hfc, hfw, hb, hwr, hwc, ?_⟩
    simp only [Dense.WF, hp, hwr, hwc]
  refine ⟨_, vec s.outputDim (fun j => Finset.sum (Finset.range s.nFeatures) (fun i =>
        featureSpec cos sqrt s.nFeatures s.features s.b input i
          * p.getD (i * s.outputDim + j) 0)), SetParameters_eq s p hwf hp, ?_, ?_, ?_⟩
  · exact vec_length _ _
  · intro j hj
    rw [vec_getElem?]
    simp only [hj, if_true, featureSpec]
  · intro output hout
    exact Predict_eq cos sqrt _ input output hwf' hin hout

/-- C3: for the loss deriver of a Sink, a feature vector of length `nFeatures`, a
`dLossDPred` of length `outputDim` and a gradient buffer of length
`nFeatures*outputDim`, `Deriv` writes `featurizedInput[i] * dLossDPred[j]` at index
`i*outputDim + j`; the buffer written is the same for every prior content of the
buffer (and for every `parameters` and `predOutput`). -/
theorem Deriv_outer_product (s : Sink α) (z g : List α)
    (hz : z.length = s.nFeatures) (hg : g.length = s.outputDim) :
    ∃ r : List α,
      r.length = s.nFeatures * s.outputDim ∧
      (∀ i j, i < s.nFeatures → j < s.outputDim →
        r[i * s.outputDim + j]? = some (z.getD i 0 * g.getD j 0)) ∧
      (∀ (parameters : Option (List α)) (predOutput w : List α),
        w.length = s.nFeatures * s.outputDim →
        s.NewLossDeriver.Deriv parameters z predOutput g w = some r) := by
  refine ⟨vec (s.nFeatures * s.outputDim)
    (fun k => z.getD (k / s.outputDim) 0 * g.getD (k % s.outputDim) 0), vec_length _ _, ?_, ?_⟩
  · intro i j hi hj
    have hle : (i + 1) * s.outputDim ≤ s.nFeatures * s.outputDim := Nat.mul_le_mul_right _ hi
    have he : (i + 1) * s.outputDim = i * s.outputDim + s.outputDim := by ring
    have hlt : i * s.outputDim + j < s.nFeatures * s.outputDim := by omega
    obtain ⟨hd, hm⟩ := div_mod_of_block i s.outputDim (i * s.outputDim + j) (by omega) (by omega)
    rw [vec_getElem?]
    simp only [hlt, if_true, hd, hm, Nat.add_sub_cancel_left]
  · intro parameters predOutput w hw
    unfold lossDerivWrapper.Deriv
    rw [deriv_eq z g w (by rw [hz, hg, hw]), hw, hz, hg]
    congr 1
    apply vec_congr
    intro k hk
    simp only [hk, if_true]

theorem getD_set (l : List α) (idx k : Nat) (v : α) (h : idx < l.length) :
    (l.set idx v).getD k 0 = if k = idx then v else l.getD k 0 := by
  simp only [List.getD_eq_getElem?_getD, List.getElem?_set]
  by_cases hk : idx = k
  · subst hk; simp [h]
  · have : ¬ k = idx := fun e => hk e.symm
    simp [hk, this]

theorem lossDeriv_Predict_eq (d : lossDerivWrapper) (p z out : List α)
    (hp : p.length = d.nFeatures * d.outputDim) (hz : z.length = d.nFeatures)
    (hout : out.length = d.outputDim) :
    d.Predict (some p) z out
      = some (vec d.outputDim (fun m => Finset.sum (Finset.range d.nFeatures) (fun k =>
          p.getD (k * d.outputDim + m) 0 * z.getD k 0))) := by
  unfold lossDerivWrapper.Predict NewDense
  simp only [hp, ne_eq, not_true_eq_false, if_false, Option.bind_eq_bind, Option.some_bind]
  rw [predictFeaturized_eq _ _ _ (by simp [Dense.WF, hp]) (by simp [hz]) (by simp [hout])]

/-- C4: for parameters `p` of length `nFeatures*outputDim`, a feature vector `z` and
indices `i < nFeatures`, `j < outputDim`, adding `ε` to `p[i*outputDim + j]` changes
component `j` of the featurized prediction by exactly `ε * z[i]` and no other
component, so the sum over `m` of `g[m]` times the change of component `m` is `ε` times
the entry `i*outputDim + j` of the gradient `Deriv` writes for `(z, g)`. -/
theorem Deriv_is_exact_gradient (d : lossDerivWrapper) (p z g out out' w : List α) (ε : α)
    (i j : Nat) (hp : p.length = d.nFeatures * d.outputDim) (hz : z.length = d.nFeatures)
    (hg : g.length = d.outputDim) (hout : out.length = d.outputDim)
    (hout' : out'.length = d.outputDim) (hw : w.length = d.nFeatures * d.outputDim)
    (hi : i < d.nFeatures) (hj : j < d.outputDim) :
    ∃ y y' dw : List α,
      d.Predict (some p) z out = some y ∧
      d.Predict (some (p.set (i * d.outputDim + j) (p.getD (i * d.outputDim + j) 0 + ε)))
        z out' = some y' ∧
      d.Deriv (some p) z y g w = some dw ∧
      y'.getD j 0 = y.getD j 0 + ε * z.getD i 0 ∧
      (∀ m, m < d.outputDim → m ≠ j → y'.getD m 0 = y.getD m 0) ∧
      Finset.sum (Finset.range d.outputDim) (fun m => g.getD m 0 * (y'.getD m 0 - y.getD m 0))
        = ε * dw.getD (i * d.outputDim + j) 0 := by
  have hle : (i + 1) * d.outputDim ≤ d.nFeatures * d.outputDim := Nat.mul_le_mul_right _ hi
  have he : (i + 1) * d.outputDim = i * d.outputDim + d.outputDim := by ring
  have hidx : i * d.outputDim + j < p.length := by omega
  have hp' : (p.set (i * d.outputDim + j) (p.getD (i * d.outputDim + j) 0 + ε)).length
      = d.nFeatures * d.outputDim := by simp [hp]
  -- the change of one component
  have hchange : ∀ m, m < d.outputDim →
      Finset.sum (Finset.range d.nFeatures) (fun k =>
        (p.set (i * d.outputDim + j) (p.getD (i * d.outputDim + j) 0 + ε)).getD
          (k * d.outputDim + m) 0 * z.getD k 0)
      = Finset.sum (Finset.range d.nFeatures) (fun k =>
          p.getD (k * d.outputDim + m) 0 * z.getD k 0)
        + (if m = j then ε * z.getD i 0 else 0) := by
    intro m hm
    have hterm : ∀ k, k ∈ Finset.range d.nFeatures →
        (p.set (i * d.outputDim + j) (p.getD (i * d.outputDim + j) 0 + ε)).getD
          (k * d.outputDim + m) 0 * z.getD k 0
        = p.getD (k * d.outputDim + m) 0 * z.getD k 0
          + (if k = i then (if m = j then ε * z.getD i 0 else 0) else 0) := by
      intro k _
      rw [getD_set p _ _ _ hidx]
      by_cases hk : k = i
      · subst hk
        by_cases hmj : m = j
        · subst hmj; simp [add_mul]
        · have : ¬ k * d.outputDim + m = k * d.outputDim + j := by omega
          simp [this, hmj]
      · have : ¬ k * d.outputDim + m = i * d.outputDim + j := by
          intro e
          obtain ⟨h1, _⟩ := div_mod_of_block i d.outputDim (k * d.outputDim + m)
            (by omega) (by omega)
          obtain ⟨h2, _⟩ := div_mod_of_block k d.outputDim (k * d.outputDim + m)
            (by omega) (by omega)
          omega
        simp [this, hk]
    rw [Finset.sum_congr rfl hterm, Finset.sum_add_distrib, Finset.sum_ite_eq']
    simp [hi]
  have hdw : (i * d.outputDim + j) < d.nFeatures * d.outputDim := by omega
  obtain ⟨hd, hm⟩ := div_mod_of_block i d.outputDim (i * d.outputDim + j) (by omega) (by omega)
  refine ⟨_, _, _, lossDeriv_Predict_eq d p z out hp hz hout,
    lossDeriv_Predict_eq d _ z out' hp' hz hout',
    deriv_eq z g w (by rw [hz, hg, hw]), ?_, ?_, ?_⟩
  · rw [vec_getD _ _ _ hj, vec_getD _ _ _ hj, hchange j hj]
    simp
  · intro m hm hne
    rw [vec_getD _ _ _ hm, vec_getD _ _ _ hm, hchange m hm]
    simp [hne]
  · have hsum : ∀ m, m ∈ Finset.range d.outputDim →
        g.getD m 0 * ((vec d.outputDim (fun m => Finset.sum (Finset.range d.nFeatures) (fun k =>
            (p.set (i * d.outputDim + j) (p.getD (i * d.outputDim + j) 0 + ε)).getD
              (k * d.outputDim + m) 0 * z.getD k 0))).getD m 0
          - (vec d.outputDim (fun m => Finset.sum (Finset.range d.nFeatures) (fun k =>
              p.getD (k * d.outputDim + m) 0 * z.getD k 0))).getD m 0)
        = if m = j then g.getD j 0 * (ε * z.getD i 0) else 0 := by
      intro m hm
      have hm' := Finset.mem_range.mp hm
      rw [vec_getD _ _ _ hm', vec_getD _ _ _ hm', hchange m hm']
      by_cases hmj : m = j
      · subst hmj; simp
      · simp [hmj]
    rw [Finset.sum_congr rfl hsum, Finset.sum_ite_eq', hw, vec_getD _ _ _ hdw]
    simp only [Finset.mem_range, hj, if_true, hz, hg, hdw, hd, hm, Nat.add_sub_cancel_left]
    ring

/-- C5: on a well-formed Sink, `Predict(input, output)` returns, and it returns an error
exactly when `len(input) != inputDim`, or `output` is supplied and
`len(output) != outputDim`; with an error the returned vector is `nil` and the supplied
buffer is as before; without one the returned vector has length `outputDim`, it is the
supplied buffer when there is one, and no buffer of the caller is written when `output`
is `nil`. -/
theorem Predict_error_iff (cos sqrt : α → α) (s : Sink α) (input : List α)
    (output : Option (List α)) (hwf : s.WF) :
    ∃ r, s.Predict cos sqrt input output = some r ∧
      (r.err ≠ none ↔
        (input.length ≠ s.inputDim ∨ ∃ o, output = some o ∧ o.length ≠ s.outputDim)) ∧
      (r.err ≠ none → r.value = none ∧ r.buf = output) ∧
      (r.err = none → ∃ v, r.value = some v ∧ v.length = s.outputDim ∧
        r.buf = output.map (fun _ => v)) := by
  by_cases hin : input.length = s.inputDim
  · by_cases hout : ∀ o, output = some o → o.length = s.outputDim
    · refine ⟨_, Predict_eq cos sqrt s input output hwf hin hout, ?_, ?_, ?_⟩
      · constructor
        · intro h; exact absurd rfl h
        · rintro (h | ⟨o, ho, hne⟩)
          · exact absurd hin h
          · exact absurd (hout o ho) hne
      · intro h; exact absurd rfl h
      · intro _
        exact ⟨_, rfl, vec_length _ _, rfl⟩
    · push_neg at hout
      obtain ⟨o, ho, hne⟩ := hout
      subst ho
      refine ⟨⟨none, some "output dimension mismatch", some o⟩, ?_, ?_, ?_, ?_⟩
      · simp [Sink.Predict, hin, hne]
      · constructor
        · intro _; exact Or.inr ⟨o, rfl, hne⟩
        · intro _; simp
      · intro _; exact ⟨rfl, rfl⟩
      · intro h; simp at h
  · refine ⟨⟨none, some "input dimension mismatch", output⟩, ?_, ?_, ?_, ?_⟩
    · simp [Sink.Predict, hin]
    · constructor
      · intro _; exact Or.inl hin
      · intro _; simp
    · intro _; exact ⟨rfl, rfl⟩
    · intro h; simp at h

/-- C6: on a well-formed Sink, `SetParameters(Parameters(nil))` returns and leaves the
model, hence the weight matrix and every prediction, as it was; and for every `p` of
length `NumParameters()`, `Parameters(nil)` after `SetParameters(p)` returns `p`. -/
theorem Parameters_SetParameters_roundtrip (s : Sink α) (hwf : s.WF) :
    (∃ q s', s.Parameters none = .returned (s, none) q ∧
      s.SetParameters q = .returned (s', q) () ∧
      s'.featureWeights = s.featureWeights ∧
      ∀ (cos sqrt : α → α) (input : List α) (output : Option (List α)),
        s'.Predict cos sqrt input output = s.Predict cos sqrt input output) ∧
    (∀ p : List α, p.length = s.NumParameters →
      ∃ s', s.SetParameters p = .returned (s', p) () ∧
        s'.Parameters none = .returned (s', none) p) := by
  have hwf0 := hwf
  obtain ⟨hfr, hfc, hfw, hb, hwr, hwc, hww⟩ := hwf0
  constructor
  · refine ⟨_, s, Parameters_nil_eq s hwf, ?_, rfl, fun _ _ _ _ => rfl⟩
    unfold Dense.WF at hww
    rw [SetParameters_eq s _ hwf (by rw [hww, hwr, hwc])]
  · intro p hp
    have hp' : p.length = s.nFeatures * s.outputDim := by
      rw [hp, Sink.NumParameters, Nat.mul_comm]
    refine ⟨_, SetParameters_eq s p hwf hp', ?_⟩
    exact Parameters_nil_eq _ ⟨hfr, hfc, hfw, hb, hwr, hwc, by
      simp only [Dense.WF, hp', hwr, hwc]⟩

/-- C7: `SetParameters(p)` panics exactly when `len(p) != NumParameters()`, and
`Parameters(p)` panics exactly when `p` is not `nil` and `len(p) != NumParameters()`; in
each panicking case the model (with its weight matrix) and the supplied slice are as
before the call. -/
theorem parameter_size_mismatch_panics (s : Sink α) (p : List α) (q : Option (List α)) :
    ((s.SetParameters p).isPanic = true ↔ p.length ≠ s.NumParameters) ∧
    ((s.Parameters q).isPanic = true ↔ ∃ buf, q = some buf ∧ buf.length ≠ s.NumParameters) ∧
    ((s.SetParameters p).isPanic = true → (s.SetParameters p).state = (s, p)) ∧
    ((s.Parameters q).isPanic = true → (s.Parameters q).state = (s, q)) := by
  refine ⟨?_, ?_, ?_, ?_⟩
  · unfold Sink.SetParameters
    by_cases h : p.length = s.NumParameters <;> simp [h, Outcome.isPanic]
  · unfold Sink.Parameters
    cases q with
    | none => simp [Outcome.isPanic]
    | some buf =>
      by_cases h : buf.length = s.NumParameters <;> simp [h, Outcome.isPanic]
  · unfold Sink.SetParameters
    by_cases h : p.length = s.NumParameters <;> simp [h, Outcome.isPanic, Outcome.state]
  · unfold Sink.Parameters
    cases q with
    | none => simp [Outcome.isPanic]
    | some buf =>
      by_cases h : buf.length = s.NumParameters <;> simp [h, Outcome.isPanic, Outcome.state]

/-- C9: on a well-formed Sink and an input of length `inputDim`, `Featurize` with a buffer
of length `nFeatures` writes
`feature[i] = sqrt(2/nFeatures) * cos(dot(input, projections[i]) + phase[i])` for every
`i < nFeatures`; the vector written is the same for every prior content of the buffer
and every weight matrix. -/
theorem Featurize_closed_form (cos sqrt : α → α) (s : Sink α) (input : List α)
    (hwf : s.WF) (hin : input.length = s.inputDim) :
    ∃ z : List α,
      z.length = s.nFeatures ∧
      (∀ i, i < s.nFeatures → z[i]? = some (sqrt (2 / (s.nFeatures : α))
        * cos (dotSpec input (s.features.row i) + s.b.getD i 0))) ∧
      (∀ (feature : List α) (W : Dense α), feature.length = s.nFeatures →
        ({ s with featureWeights := W } : Sink α).Featurize cos sqrt input feature = some z) := by
  refine ⟨vec s.nFeatures (featureSpec cos sqrt s.nFeatures s.features s.b input),
    vec_length _ _, ?_, ?_⟩
  · intro i hi
    rw [vec_getElem?]
    simp only [hi, if_true, featureSpec]
  · intro feature W hlen
    exact Featurize_eq cos sqrt s input feature hwf hin hlen

/-- C8: the scenario of the spec over the reals: with `nFeatures=2`, `inputDim=1`,
`outputDim=1`, projections `[[1],[0]]`, phases `[0, π/2]` and weights `[1, 1]`,
`Featurize` on input `[0]` writes `[1, 0]` and `Predict` on input `[0]` returns `[1]`. -/
theorem scenario_two_features (k : Kernel ℝ) (a c : ℝ) :
    Sink.Featurize Real.cos Real.sqrt
        ⟨k, 2, 1, 1, ⟨2, 1, [1, 0]⟩, ⟨2, 1, [1, 1]⟩, [0, Real.pi / 2]⟩ [0] [a, c]
      = some [1, 0] ∧
    Sink.Predict Real.cos Real.sqrt
        ⟨k, 2, 1, 1, ⟨2, 1, [1, 0]⟩, ⟨2, 1, [1, 1]⟩, [0, Real.pi / 2]⟩ [0] none
      = some ⟨some [1], none, none⟩ := by
  constructor
  · simp [Sink.Featurize, forRange, forLoop, setAt, Dense.RowView, Dense.row, computeZ, Dot]
  · simp [Sink.Predict, predict, forRange, forLoop, setAt, Dense.RowView, Dense.row,
      Dense.At, Dense.Dims, computeZ, Dot]

theorem NewSink_eq (pi : α) (u : Nat → α) (nFeatures : Nat) (kernel : Kernel α)
    (inputDim outputDim : Nat) :
    NewSink pi u nFeatures kernel inputDim outputDim
      = some { kernel := kernel, nFeatures := nFeatures, inputDim := inputDim,
               outputDim := outputDim,
               features := kernel.Generate nFeatures inputDim
                 ⟨nFeatures, inputDim, List.replicate (nFeatures * inputDim) 0⟩,
               featureWeights := ⟨nFeatures, outputDim, List.replicate (nFeatures * outputDim) 0⟩,
               b := vec nFeatures (fun i => u i * pi * 2) } := by
  unfold NewSink NewDense
  simp only [Option.bind_eq_bind, Option.some_bind]
  rw [forRange_fill (fun i => u i * pi * 2) (List.replicate nFeatures 0)]
  simp

theorem DimInv_exec (nFeatures inputDim outputDim : Nat) (s : Sink α) (op : Op α)
    (h : DimInv nFeatures inputDim outputDim s) :
    DimInv nFeatures inputDim outputDim (s.exec op) := by
  obtain ⟨h1, h2, h3, h4⟩ := h
  cases op with
  | SetParameters p =>
    show DimInv _ _ _ (s.SetParameters p).state.1
    unfold Sink.SetParameters
    by_cases hp : p.length = s.NumParameters
    · simp only [hp, ne_eq, not_true_eq_false, if_false, Outcome.state]
      exact ⟨h1, h2, h3, by simp only [copySlice_length, h4]⟩
    · simp only [hp, ne_eq, not_false_eq_true, if_true, Outcome.state]
      exact ⟨h1, h2, h3, h4⟩
  | RandomizeParameters g =>
    show DimInv _ _ _ ((s.RandomizeParameters g).getD s)
    unfold Sink.RandomizeParameters
    rw [forRange_fill g s.featureWeights.data]
    simp only [Option.bind_eq_bind, Option.some_bind, Option.getD, Option.pure_def]
    exact ⟨h1, h2, h3, by simp only [vec_length, h4]⟩
  | Parameters p =>
    show DimInv _ _ _ (s.Parameters p).state.1
    unfold Sink.Parameters
    cases p with
    | none => exact ⟨h1, h2, h3, h4⟩
    | some buf =>
      by_cases hp : buf.length = s.NumParameters
      · simp only [hp, ne_eq, not_true_eq_false, if_false, Outcome.state]
        exact ⟨h1, h2, h3, h4⟩
      · simp only [hp, ne_eq, not_false_eq_true, if_true, Outcome.state]
        exact ⟨h1, h2, h3, h4⟩
  | Predict input output => exact ⟨h1, h2, h3, h4⟩
  | Featurize input feature => exact ⟨h1, h2, h3, h4⟩

theorem DimInv_run (nFeatures inputDim outputDim : Nat) (ops : List (Op α)) :
    ∀ s : Sink α, DimInv nFeatures inputDim outputDim s →
      DimInv nFeatures inputDim outputDim (s.run ops) := by
  induction ops with
  | nil => intro s h; exact h
  | cons op rest ih =>
    intro s h
    exact ih (s.exec op) (DimInv_exec nFeatures inputDim outputDim s op h)

/-- C10: `NewSink` returns a model, and in every state reached from it by a sequence of
`SetParameters`, `RandomizeParameters`, `Parameters`, `Predict` and `Featurize` calls,
`NumFeatures()`, `InputDim()` and `OutputDim()` are the constructor's arguments, the
weight storage has `nFeatures*outputDim` entries, `NumParameters()` is
`nFeatures*outputDim`, and `Parameters(nil)` returns a vector of that length. -/
theorem dimension_invariant (pi : α) (u : Nat → α) (nFeatures : Nat) (kernel : Kernel α)
    (inputDim outputDim : Nat) (ops : List (Op α)) :
    ∃ s0, NewSink pi u nFeatures kernel inputDim outputDim = some s0 ∧
      (s0.run ops).NumFeatures = nFeatures ∧
      (s0.run ops).InputDim = inputDim ∧
      (s0.run ops).OutputDim = outputDim ∧
      (s0.run ops).featureWeights.data.length = nFeatures * outputDim ∧
      (s0.run ops).NumParameters = nFeatures * outputDim ∧
      ∃ q, (s0.run ops).Parameters none = .returned (s0.run ops, none) q ∧
        q.length = nFeatures * outputDim := by
  refine ⟨_, NewSink_eq pi u nFeatures kernel inputDim outputDim, ?_⟩
  obtain ⟨h1, h2, h3, h4⟩ := DimInv_run nFeatures inputDim outputDim ops _
    (show DimInv nFeatures inputDim outputDim
      ({ kernel := kernel, nFeatures := nFeatures, inputDim := inputDim,
         outputDim := outputDim,
         features := kernel.Generate nFeatures inputDim
           ⟨nFeatures, inputDim, List.replicate (nFeatures * inputDim) 0⟩,
         featureWeights := ⟨nFeatures, outputDim, List.replicate (nFeatures * outputDim) 0⟩,
         b := vec nFeatures (fun i => u i * pi * 2) } : Sink α) from
      ⟨rfl, rfl, rfl, by simp⟩)
  refine ⟨h1, h2, h3, h4, ?_, _, rfl, ?_⟩
  · rw [Sink.NumParameters, h1, h3, Nat.mul_comm]
  · rw [copySlice_length, List.length_replicate, Sink.NumParameters, h1, h3, Nat.mul_comm]

end Claims

/-! ## Frame, fresh model, batch predictor, index safety and the gradient loop -/

theorem vec_const (n : Nat) (c : α) : vec n (fun _ => c) = List.replicate n c := by
  apply List.ext_getElem?
  intro k
  rw [vec_getElem?, List.getElem?_replicate]

section MoreClaims
variable [Field α]

theorem RandomizeParameters_eq (g : Nat → α) (s : Sink α) :
    s.RandomizeParameters g
      = some { s with featureWeights :=
          { s.featureWeights with data := vec s.featureWeights.data.length g } } := by
  unfold Sink.RandomizeParameters
  rw [forRange_fill g s.featureWeights.data]
  rfl

/-- C11: `SetParameters` and `RandomizeParameters` leave the projection matrix, the phase
vector, the kernel, the three dimensions and the shape of the weight matrix as they
were (and `SetParameters` leaves its argument as it was); `Parameters` leaves the model
as it was; a call of `Predict` or `Featurize` that returns leaves the model and the
input slice as they were; `NumParameters` is a function of the model alone. -/
theorem frame_of_operations (cos sqrt : α → α) (s : Sink α) (p : List α) (g : Nat → α)
    (q : Option (List α)) (input feature : List α) (output : Option (List α)) :
    ((s.SetParameters p).state.1.features = s.features ∧
      (s.SetParameters p).state.1.b = s.b ∧
      (s.SetParameters p).state.1.kernel = s.kernel ∧
      (s.SetParameters p).state.1.nFeatures = s.nFeatures ∧
      (s.SetParameters p).state.1.inputDim = s.inputDim ∧
      (s.SetParameters p).state.1.outputDim = s.outputDim ∧
      (s.SetParameters p).state.1.featureWeights.Dims = s.featureWeights.Dims ∧
      (s.SetParameters p).state.2 = p) ∧
    (∃ s', s.RandomizeParameters g = some s' ∧
      s'.features = s.features ∧ s'.b = s.b ∧ s'.kernel = s.kernel ∧
      s'.nFeatures = s.nFeatures ∧ s'.inputDim = s.inputDim ∧
      s'.outputDim = s.outputDim ∧ s'.featureWeights.Dims = s.featureWeights.Dims) ∧
    (s.Parameters q).state.1 = s ∧
    (∀ m, s.PredictMem cos sqrt input output = some m → m.1 = s ∧ m.2.1 = input) ∧
    (∀ m, s.FeaturizeMem cos sqrt input feature = some m → m.1 = s ∧ m.2.1 = input) ∧
    s.exec (.Parameters q) = s ∧ s.exec (.Predict input output) = s ∧
    s.exec (.Featurize input feature) = s ∧
    (s.exec (.Predict input output)).NumParameters = s.NumParameters := by
  have hpar : (s.Parameters q).state.1 = s := by
    unfold Sink.Parameters
    cases q with
    | none => rfl
    | some buf =>
      by_cases h : buf.length = s.NumParameters <;> simp [h, Outcome.state]
  refine ⟨?_, ⟨_, RandomizeParameters_eq g s, rfl, rfl, rfl, rfl, rfl, rfl, rfl⟩, hpar,
    ?_, ?_, hpar, rfl, rfl, rfl⟩
  · unfold Sink.SetParameters
    by_cases h : p.length = s.NumParameters <;> simp [h, Outcome.state, Dense.Dims]
  · intro m hm
    unfold Sink.PredictMem at hm
    cases hr : s.Predict cos sqrt input output with
    | none => rw [hr] at hm; cases hm
    | some r =>
      rw [hr] at hm
      cases hm
      exact ⟨rfl, rfl⟩
  · intro m hm
    unfold Sink.FeaturizeMem at hm
    cases hr : s.Featurize cos sqrt input feature with
    | none => rw [hr] at hm; cases hm
    | some r =>
      rw [hr] at hm
      cases hm
      exact ⟨rfl, rfl⟩

theorem getD_replicate_zero (n k : Nat) : (List.replicate n (0 : α)).getD k 0 = 0 := by
  rw [List.getD_eq_getElem?_getD, List.getElem?_replicate]
  by_cases h : k < n <;> simp [h]

/-- C13: `NewSink` returns a model whose `Parameters(nil)` is the all-zero vector of
length `nFeatures*outputDim`; when the kernel fills the matrix it is given without
changing its shape, `Predict` on that model returns the all-zero vector of length
`outputDim` for every input of length `inputDim`. -/
theorem NewSink_zero_weights (cos sqrt : α → α) (pi : α) (u : Nat → α) (nFeatures : Nat)
    (kernel : Kernel α) (inputDim outputDim : Nat) :
    ∃ s, NewSink pi u nFeatures kernel inputDim outputDim = some s ∧
      s.Parameters none
        = .returned (s, none) (List.replicate (nFeatures * outputDim) 0) ∧
      (List.replicate (nFeatures * outputDim) (0 : α)).length = nFeatures * outputDim ∧
      (∀ k, (List.replicate (nFeatures * outputDim) (0 : α)).getD k 0 = 0) ∧
      ((∀ m : Dense α, (kernel.Generate nFeatures inputDim m).rows = m.rows ∧
          (kernel.Generate nFeatures inputDim m).cols = m.cols ∧
          (kernel.Generate nFeatures inputDim m).data.length = m.data.length) →
        ∀ input : List α, input.length = inputDim →
          s.Predict cos sqrt input none
            = some ⟨some (List.replicate outputDim 0), none, none⟩) := by
  refine ⟨_, NewSink_eq pi u nFeatures kernel inputDim outputDim, ?_, by simp,
    getD_replicate_zero _, ?_⟩
  · unfold Sink.Parameters
    simp only
    rw [copySlice_same_length]
    simp [Sink.NumParameters, Nat.mul_comm]
  · intro hk input hin
    obtain ⟨hr, hc, hl⟩ := hk ⟨nFeatures, inputDim, List.replicate (nFeatures * inputDim) 0⟩
    have hwf : (⟨kernel, nFeatures, inputDim, outputDim,
        kernel.Generate nFeatures inputDim
          ⟨nFeatures, inputDim, List.replicate (nFeatures * inputDim) 0⟩,
        ⟨nFeatures, outputDim, List.replicate (nFeatures * outputDim) 0⟩,
        vec nFeatures (fun i => u i * pi * 2)⟩ : Sink α).WF := by
      refine ⟨hr, hc, ?_, vec_length _ _, rfl, rfl, ?_⟩
      · simp only [Dense.WF, hl, hr, hc, List.length_replicate]
      · simp only [Dense.WF, List.length_replicate]
    rw [Predict_eq cos sqrt _ input none hwf hin (by intro o h; cases h)]
    simp only [getD_replicate_zero, mul_zero, Finset.sum_const_zero, vec_const, Option.map_none']

/-- C15: the predictor that `PredictBatch` hands to the batch driver is its own
`NewPredictor()`, and on a well-formed Sink, an input of length `inputDim` and an
output buffer of length `outputDim` its `Predict` writes the vector that
`Sink.Predict(input, nil)` returns. -/
theorem batchPredictor_agrees_with_Predict (cos sqrt : α → α) (s : Sink α)
    (input output : List α) (hwf : s.WF) (hin : input.length = s.inputDim)
    (hout : output.length = s.outputDim) :
    ∃ batch : batchPredictor α,
      (∀ (ι ο ρ : Type) (BatchPredict : batchPredictor α → ι → ο → Nat → Nat → Nat → ρ)
          (inputs : ι) (outputs : ο),
        s.PredictBatch BatchPredict inputs outputs
          = BatchPredict batch inputs outputs s.inputDim s.outputDim s.GrainSize) ∧
      batch.NewPredictor = batch ∧
      ∃ v, batch.Predict cos sqrt input output = some v ∧
        s.Predict cos sqrt input none = some ⟨some v, none, none⟩ := by
  have hwf0 := hwf
  obtain ⟨hfr, hfc, hfw, hb, hwr, hwc, hww⟩ := hwf0
  refine ⟨⟨s.features, s.featureWeights, s.b⟩, fun _ _ _ _ _ _ => rfl, rfl,
    vec s.outputDim (fun j => Finset.sum (Finset.range s.nFeatures) (fun i =>
      featureSpec cos sqrt s.nFeatures s.features s.b input i
        * s.featureWeights.data.getD (i * s.outputDim + j) 0)), ?_, ?_⟩
  · unfold batchPredictor.Predict
    rw [predict_eq cos sqrt input s.features s.b s.featureWeights output hfw (by omega)
      (by omega) hww (by omega) (by omega), hfr, hwc]
  · rw [Predict_eq cos sqrt s input none hwf hin (by intro o h; cases h)]
    rfl

/-- C17: on a well-formed Sink, for a call of `Predict` that passes the two length
checks, every access made by `predict` is in range: for each feature `i` the phase
`b[i]` exists, row `i` of the projection matrix exists and has the length of the
input (so the dot product is defined), and for each output `j` the weight `(i, j)`
and the entry `j` of the output buffer exist; the call returns a vector and no error. -/
theorem Predict_index_safe (cos sqrt : α → α) (s : Sink α) (input : List α)
    (output : Option (List α)) (hwf : s.WF) (hin : input.length = s.inputDim)
    (hout : ∀ o, output = some o → o.length = s.outputDim) :
    (∀ i, i < s.features.Dims.1 →
      (∃ bi, s.b[i]? = some bi) ∧
      (∃ row, s.features.RowView i = some row ∧ row.length = input.length ∧
        ∃ d, Dot input row = some d) ∧
      (∀ j, j < s.featureWeights.Dims.2 →
        (∃ w, s.featureWeights.At i j = some w) ∧
        j < (output.getD (List.replicate s.outputDim 0)).length)) ∧
    ∃ v, s.Predict cos sqrt input output = some ⟨some v, none, output.map (fun _ => v)⟩ ∧
      v.length = s.outputDim := by
  have hwf0 := hwf
  obtain ⟨hfr, hfc, hfw, hb, hwr, hwc, hww⟩ := hwf0
  refine ⟨?_, _, Predict_eq cos sqrt s input output hwf hin hout, vec_length _ _⟩
  intro i hi
  have hi' : i < s.features.rows := hi
  have hrow : input.length = (s.features.row i).length := by
    rw [Dense.row_length _ _ hfw hi', hfc, hin]
  refine ⟨⟨_, getElem?_eq_some_getD s.b i (by omega)⟩,
    ⟨_, Dense.RowView_eq _ _ hfw hi', hrow.symm, _, Dot_eq _ _ hrow⟩, ?_⟩
  intro j hj
  have hj' : j < s.featureWeights.cols := hj
  refine ⟨⟨_, Dense.At_eq _ i j hww (by omega) hj'⟩, ?_⟩
  cases output with
  | none => simp only [Option.getD, List.length_replicate]; omega
  | some o => simp only [Option.getD, hout o rfl]; omega

/-- C19: `Deriv` gives the same result for two calls with the same `featurizedInput`,
`dLossDPred` and gradient buffer, whatever the wrappers, `parameters` and `predOutput`
are; a call that returns leaves `parameters`, `featurizedInput`, `predOutput` and
`dLossDPred` as they were; and on a buffer with at least
`len(featurizedInput)*len(dLossDPred)` entries it returns, writes
`featurizedInput[i]*dLossDPred[j]` at index `i*len(dLossDPred)+j`, leaves the entries
from `len(featurizedInput)*len(dLossDPred)` on as they were, and each index below
that bound is `i*len(dLossDPred)+j` for exactly one pair `(i, j)` of the loops. -/
theorem Deriv_depends_only_on_features_and_gradient (d1 d2 : lossDerivWrapper)
    (p1 p2 : Option (List α)) (o1 o2 z g w : List α) :
    d1.Deriv p1 z o1 g w = d2.Deriv p2 z o2 g w ∧
    (∀ m, d1.DerivMem ⟨p1, z, o1, g, w⟩ = some m →
      m.parameters = p1 ∧ m.featurizedInput = z ∧ m.predOutput = o1 ∧ m.dLossDPred = g) ∧
    (z.length * g.length ≤ w.length →
      ∃ r, d1.Deriv p1 z o1 g w = some r ∧ r.length = w.length ∧
        (∀ i j, i < z.length → j < g.length →
          r[i * g.length + j]? = some (z.getD i 0 * g.getD j 0)) ∧
        (∀ k, z.length * g.length ≤ k → r[k]? = w[k]?) ∧
        (∀ k, k < z.length * g.length →
          ∃! ij : Nat × Nat, ij.1 < z.length ∧ ij.2 < g.length ∧
            ij.1 * g.length + ij.2 = k)) := by
  refine ⟨rfl, ?_, ?_⟩
  · intro m hm
    unfold lossDerivWrapper.DerivMem at hm
    cases hr : d1.Deriv p1 z o1 g w with
    | none => simp [hr] at hm
    | some r =>
      simp only [hr, Option.bind_eq_bind, Option.some_bind, Option.pure_def,
        Option.some.injEq] at hm
      subst hm
      exact ⟨rfl, rfl, rfl, rfl⟩
  · intro hlen
    refine ⟨_, deriv_eq z g w hlen, vec_length _ _, ?_, ?_, ?_⟩
    · intro i j hi hj
      have hle : (i + 1) * g.length ≤ z.length * g.length := Nat.mul_le_mul_right _ hi
      have he : (i + 1) * g.length = i * g.length + g.length := by ring
      have hlt : i * g.length + j < z.length * g.length := by omega
      obtain ⟨hd, hm⟩ := div_mod_of_block i g.length (i * g.length + j) (by omega) (by omega)
      rw [vec_getElem?]
      have hlt' : i * g.length + j < w.length := by omega
      simp only [hlt', hlt, if_true, hd, hm, Nat.add_sub_cancel_left]
    · intro k hk
      rw [vec_getElem?]
      by_cases hkw : k < w.length
      · have : ¬ k < z.length * g.length := by omega
        simp only [hkw, if_true, this, if_false]
        rw [getElem?_eq_some_getD w k hkw]
      · have : w[k]? = none := by simp; omega
        simp only [hkw, if_false, this]
    · intro k hk
      have hg : 0 < g.length := by
        rcases Nat.eq_zero_or_pos g.length with h0 | h0
        · rw [h0] at hk; simp at hk
        · exact h0
      refine ⟨(k / g.length, k % g.length), ⟨?_, Nat.mod_lt _ hg, ?_⟩, ?_⟩
      · exact Nat.div_lt_of_lt_mul (by rw [Nat.mul_comm]; exact hk)
      · show k / g.length * g.length + k % g.length = k
        rw [Nat.mul_comm]; exact Nat.div_add_mod k g.length
      · rintro ⟨i, j⟩ ⟨_, hj, hij⟩
        have hj' : j < g.length := hj
        have hij' : i * g.length + j = k := hij
        obtain ⟨hd, hm⟩ := div_mod_of_block i g.length k (by omega) (by omega)
        have : j = k - i * g.length := by omega
        rw [this, hd, hm]

theorem getD_zipWith (f : α → α → α) (hf : f 0 0 = 0) (p1 p2 : List α)
    (h : p1.length = p2.length) (k : Nat) :
    (List.zipWith f p1 p2).getD k 0 = f (p1.getD k 0) (p2.getD k 0) := by
  simp only [List.getD_eq_getElem?_getD, List.getElem?_zipWith]
  by_cases hk : k < p1.length
  · have hk2 : k < p2.length := by omega
    simp [List.getElem?_eq_getElem hk, List.getElem?_eq_getElem hk2]
  · have h1 : p1[k]? = none := by simp; omega
    have h2 : p2[k]? = none := by simp; omega
    simp [h1, h2, hf]

theorem Predict_SetParameters_eq (cos sqrt : α → α) (s : Sink α) (p input : List α)
    (hwf : s.WF) (hp : p.length = s.nFeatures * s.outputDim)
    (hin : input.length = s.inputDim) :
    (s.SetParameters p).state.1.Predict cos sqrt input none
      = some ⟨some (vec s.outputDim (fun j => Finset.sum (Finset.range s.nFeatures) (fun i =>
          featureSpec cos sqrt s.nFeatures s.features s.b input i
            * p.getD (i * s.outputDim + j) 0))), none, none⟩ := by
  have hwf' : (⟨s.kernel, s.nFeatures, s.inputDim, s.outputDim, s.features,
      ⟨s.featureWeights.rows, s.featureWeights.cols, p⟩, s.b⟩ : Sink α).WF := by
    obtain ⟨hfr, hfc, hfw, hb, hwr, hwc, hww⟩ := hwf
    refine ⟨hfr, hfc, hfw, hb, hwr, hwc, ?_⟩
    simp only [Dense.WF, hp, hwr, hwc]
  rw [SetParameters_eq s p hwf hp]
  exact Predict_eq cos sqrt _ input none hwf' hin (by intro o h; cases h)

theorem dotSpec_sub (x y w : List α) (hx : x.length = w.length) (hy : y.length = w.length) :
    dotSpec w (List.zipWith (fun p q => p - q) x y) = dotSpec x w - dotSpec y w := by
  unfold dotSpec
  rw [hx, hy, ← Finset.sum_sub_distrib]
  apply Finset.sum_congr rfl
  intro k _
  rw [getD_zipWith (fun p q => p - q) (by simp) x y (by omega)]
  ring

theorem dotSpec_add (x y w : List α) (hx : x.length = w.length) (hy : y.length = w.length) :
    dotSpec w (List.zipWith (fun p q => p + q) x y) = dotSpec x w + dotSpec y w := by
  unfold dotSpec
  rw [hx, hy, ← Finset.sum_add_distrib]
  apply Finset.sum_congr rfl
  intro k _
  rw [getD_zipWith (fun p q => p + q) (by simp) x y (by omega)]
  ring

end MoreClaims

/-! ## Linearity in the parameters -/

section Ordered
variable [LinearOrderedField α]

/-- C12: on a well-formed Sink and an input of length `inputDim`, for weight vectors
`p1`, `p2` of length `nFeatures*outputDim` and scalars `a`, `c`, the prediction
under the weights `a*p1 + c*p2` is, component by component, `a` times the prediction
under `p1` plus `c` times the prediction under `p2`; so for `a, c ≥ 0` with
`a + c = 1` each component is at most that combination (convexity). -/
theorem Predict_linear_in_parameters (cos sqrt : α → α) (s : Sink α)
    (p1 p2 input : List α) (a c : α) (hwf : s.WF)
    (hp1 : p1.length = s.nFeatures * s.outputDim)
    (hp2 : p2.length = s.nFeatures * s.outputDim) (hin : input.length = s.inputDim) :
    ∃ v1 v2 v3 : List α,
      (s.SetParameters p1).state.1.Predict cos sqrt input none = some ⟨some v1, none, none⟩ ∧
      (s.SetParameters p2).state.1.Predict cos sqrt input none = some ⟨some v2, none, none⟩ ∧
      (s.SetParameters (List.zipWith (fun x y => a * x + c * y) p1 p2)).state.1.Predict
        cos sqrt input none = some ⟨some v3, none, none⟩ ∧
      v1.length = s.outputDim ∧ v2.length = s.outputDim ∧ v3.length = s.outputDim ∧
      (∀ j, j < s.outputDim → v3.getD j 0 = a * v1.getD j 0 + c * v2.getD j 0) ∧
      (0 ≤ a → 0 ≤ c → a + c = 1 →
        ∀ j, j < s.outputDim → v3.getD j 0 ≤ a * v1.getD j 0 + c * v2.getD j 0) := by
  have hp3 : (List.zipWith (fun x y => a * x + c * y) p1 p2).length
      = s.nFeatures * s.outputDim := by
    simp [hp1, hp2]
  have hlin : ∀ j, j < s.outputDim →
      (vec s.outputDim (fun j => Finset.sum (Finset.range s.nFeatures) (fun i =>
          featureSpec cos sqrt s.nFeatures s.features s.b input i
            * (List.zipWith (fun x y => a * x + c * y) p1 p2).getD
                (i * s.outputDim + j) 0))).getD j 0
      = a * (vec s.outputDim (fun j => Finset.sum (Finset.range s.nFeatures) (fun i =>
          featureSpec cos sqrt s.nFeatures s.features s.b input i
            * p1.getD (i * s.outputDim + j) 0))).getD j 0
        + c * (vec s.outputDim (fun j => Finset.sum (Finset.range s.nFeatures) (fun i =>
          featureSpec cos sqrt s.nFeatures s.features s.b input i
            * p2.getD (i * s.outputDim + j) 0))).getD j 0 := by
    intro j hj
    rw [vec_getD _ _ _ hj, vec_getD _ _ _ hj, vec_getD _ _ _ hj, Finset.mul_sum,
      Finset.mul_sum, ← Finset.sum_add_distrib]
    apply Finset.sum_congr rfl
    intro i _
    rw [getD_zipWith (fun x y => a * x + c * y) (by simp) p1 p2 (by omega)]
    ring
  refine ⟨_, _, _, Predict_SetParameters_eq cos sqrt s p1 input hwf hp1 hin,
    Predict_SetParameters_eq cos sqrt s p2 input hwf hp2 hin,
    Predict_SetParameters_eq cos sqrt s _ input hwf hp3 hin,
    vec_length _ _, vec_length _ _, vec_length _ _, hlin, ?_⟩
  intro _ _ _ j hj
  exact le_of_eq (hlin j hj)

end Ordered

/-! ## Statements over the reals -/

section Reals

/-- C14: with draws `u 0, u 1, ...` in `[0, 1)`, `NewSink` returns a model whose phase
vector has length `nFeatures` and entry `i` equal to `u i * (2*π)`, which lies in
`[0, 2*π)`. -/
theorem NewSink_phases (u : Nat → ℝ) (nFeatures : Nat) (kernel : Kernel ℝ)
    (inputDim outputDim : Nat) (hu : ∀ i, 0 ≤ u i ∧ u i < 1) :
    ∃ s, NewSink Real.pi u nFeatures kernel inputDim outputDim = some s ∧
      s.b.length = nFeatures ∧
      ∀ i, i < nFeatures → ∃ x, s.b[i]? = some x ∧ x = u i * (2 * Real.pi) ∧
        0 ≤ x ∧ x < 2 * Real.pi := by
  refine ⟨_, NewSink_eq Real.pi u nFeatures kernel inputDim outputDim, vec_length _ _, ?_⟩
  intro i hi
  have hpi := Real.pi_pos
  obtain ⟨h0, h1⟩ := hu i
  refine ⟨u i * Real.pi * 2, ?_, by ring, by positivity, by nlinarith⟩
  show (vec nFeatures (fun i => u i * Real.pi * 2))[i]? = _
  rw [vec_getElem?]
  simp only [hi, if_true]

/-- C18: for `nFeatures > 0`, on a well-formed Sink and an input of length `inputDim`,
each entry of the feature vector written by `Featurize` has absolute value at most
`sqrt(2/nFeatures)`, and the sum of the squares of the entries is at most `2`. -/
theorem features_bounded (s : Sink ℝ) (input feature : List ℝ) (hn : 0 < s.nFeatures)
    (hwf : s.WF) (hin : input.length = s.inputDim) (hlen : feature.length = s.nFeatures) :
    ∃ z : List ℝ, s.Featurize Real.cos Real.sqrt input feature = some z ∧
      z.length = s.nFeatures ∧
      (∀ i, i < s.nFeatures → |z.getD i 0| ≤ Real.sqrt (2 / (s.nFeatures : ℝ))) ∧
      Finset.sum (Finset.range s.nFeatures) (fun i => z.getD i 0 ^ 2) ≤ 2 := by
  have hbound : ∀ i, i < s.nFeatures →
      |(vec s.nFeatures (featureSpec Real.cos Real.sqrt s.nFeatures s.features s.b input)).getD
        i 0| ≤ Real.sqrt (2 / (s.nFeatures : ℝ)) := by
    intro i hi
    rw [vec_getD _ _ _ hi]
    unfold featureSpec
    rw [abs_mul, abs_of_nonneg (Real.sqrt_nonneg _)]
    exact mul_le_of_le_one_right (Real.sqrt_nonneg _) (Real.abs_cos_le_one _)
  refine ⟨_, Featurize_eq Real.cos Real.sqrt s input feature hwf hin hlen, vec_length _ _,
    hbound, ?_⟩
  have hpos : (0 : ℝ) < (s.nFeatures : ℝ) := by exact_mod_cast hn
  have hsq : ∀ i, i ∈ Finset.range s.nFeatures →
      (vec s.nFeatures (featureSpec Real.cos Real.sqrt s.nFeatures s.features s.b input)).getD
        i 0 ^ 2 ≤ 2 / (s.nFeatures : ℝ) := by
    intro i hi
    have h := hbound i (Finset.mem_range.mp hi)
    have h2 : (Real.sqrt (2 / (s.nFeatures : ℝ))) ^ 2 = 2 / (s.nFeatures : ℝ) :=
      Real.sq_sqrt (by positivity)
    rw [← h2, ← sq_abs]
    exact pow_le_pow_left₀ (abs_nonneg _) h 2
  calc Finset.sum (Finset.range s.nFeatures) _
      ≤ Finset.sum (Finset.range s.nFeatures) (fun _ => 2 / (s.nFeatures : ℝ)) :=
        Finset.sum_le_sum hsq
    _ = 2 := by
        rw [Finset.sum_const, Finset.card_range, nsmul_eq_mul]
        field_simp

theorem feature_product (nFeatures : Nat) (x y w : List ℝ) (b : ℝ) (hn : 0 < nFeatures) :
    (nFeatures : ℝ) * (Real.sqrt (2 / (nFeatures : ℝ)) * Real.cos (dotSpec x w + b))
        * (Real.sqrt (2 / (nFeatures : ℝ)) * Real.cos (dotSpec y w + b))
      = Real.cos (dotSpec x w - dotSpec y w)
        + Real.cos (dotSpec x w + dotSpec y w + 2 * b) := by
  have hpos : (0 : ℝ) < (nFeatures : ℝ) := by exact_mod_cast hn
  have hs : Real.sqrt (2 / (nFeatures : ℝ)) * Real.sqrt (2 / (nFeatures : ℝ))
      = 2 / (nFeatures : ℝ) := Real.mul_self_sqrt (by positivity)
  have h2 := Real.two_mul_cos_mul_cos (dotSpec x w + b) (dotSpec y w + b)
  have e1 : dotSpec x w + b - (dotSpec y w + b) = dotSpec x w - dotSpec y w := by ring
  have e2 : dotSpec x w + b + (dotSpec y w + b) = dotSpec x w + dotSpec y w + 2 * b := by ring
  rw [e1, e2] at h2
  rw [← h2]
  calc (nFeatures : ℝ) * (Real.sqrt (2 / (nFeatures : ℝ)) * Real.cos (dotSpec x w + b))
        * (Real.sqrt (2 / (nFeatures : ℝ)) * Real.cos (dotSpec y w + b))
      = (nFeatures : ℝ) * (Real.sqrt (2 / (nFeatures : ℝ)) * Real.sqrt (2 / (nFeatures : ℝ)))
          * Real.cos (dotSpec x w + b) * Real.cos (dotSpec y w + b) := by ring
    _ = 2 * Real.cos (dotSpec x w + b) * Real.cos (dotSpec y w + b) := by
        rw [hs]; field_simp

theorem integral_cos_shift (D S : ℝ) :
    ∫ b in (0 : ℝ)..(2 * Real.pi), (Real.cos D + Real.cos (S + 2 * b))
      = 2 * Real.pi * Real.cos D := by
  have hc : Continuous (fun b : ℝ => Real.cos (S + 2 * b)) := by continuity
  rw [intervalIntegral.integral_add (continuous_const.intervalIntegrable _ _)
    (hc.intervalIntegrable _ _)]
  rw [intervalIntegral.integral_const,
    intervalIntegral.integral_comp_add_mul (fun t => Real.cos t) (two_ne_zero) S, integral_cos]
  have e : S + 2 * (2 * Real.pi) = S + 2 * Real.pi + 2 * Real.pi := by ring
  rw [e, Real.sin_add_two_pi, Real.sin_add_two_pi]
  simp

/-- C16: for `nFeatures > 0`, a projection row `w`, a phase `b` and inputs `x`, `y` of the
length of `w`, `nFeatures` times the product of the two features
`computeZ(x, w, b, sqrt(2/nFeatures))` and `computeZ(y, w, b, sqrt(2/nFeatures))` is
`cos(dot(w, x - y)) + cos(dot(w, x + y) + 2*b)`, and the mean of this product over `b` in
`[0, 2*π)`, that is `1/(2*π)` times its integral, is `cos(dot(w, x - y))`. -/
theorem feature_product_shift_invariant (nFeatures : Nat) (x y w : List ℝ)
    (hn : 0 < nFeatures) (hx : x.length = w.length) (hy : y.length = w.length) :
    (∀ b : ℝ, ∃ zx zy : ℝ,
      computeZ Real.cos x w b (Real.sqrt (2 / (nFeatures : ℝ))) = some zx ∧
      computeZ Real.cos y w b (Real.sqrt (2 / (nFeatures : ℝ))) = some zy ∧
      (nFeatures : ℝ) * zx * zy
        = Real.cos (dotSpec w (List.zipWith (fun p q => p - q) x y))
          + Real.cos (dotSpec w (List.zipWith (fun p q => p + q) x y) + 2 * b)) ∧
    (1 / (2 * Real.pi)) * ∫ b in (0 : ℝ)..(2 * Real.pi),
        (nFeatures : ℝ)
          * (computeZ Real.cos x w b (Real.sqrt (2 / (nFeatures : ℝ)))).getD 0
          * (computeZ Real.cos y w b (Real.sqrt (2 / (nFeatures : ℝ)))).getD 0
      = Real.cos (dotSpec w (List.zipWith (fun p q => p - q) x y)) := by
  constructor
  · intro b
    refine ⟨_, _, computeZ_eq Real.cos x w b _ hx, computeZ_eq Real.cos y w b _ hy, ?_⟩
    rw [dotSpec_sub x y w hx hy, dotSpec_add x y w hx hy]
    exact feature_product nFeatures x y w b hn
  · have hfun : (fun b : ℝ => (nFeatures : ℝ)
          * (computeZ Real.cos x w b (Real.sqrt (2 / (nFeatures : ℝ)))).getD 0
          * (computeZ Real.cos y w b (Real.sqrt (2 / (nFeatures : ℝ)))).getD 0)
        = fun b : ℝ => Real.cos (dotSpec x w - dotSpec y w)
          + Real.cos (dotSpec x w + dotSpec y w + 2 * b) := by
      funext b
      rw [computeZ_eq Real.cos x w b _ hx, computeZ_eq Real.cos y w b _ hy]
      exact feature_product nFeatures x y w b hn
    rw [hfun, integral_cos_shift, dotSpec_sub x y w hx hy]
    have hpi := Real.pi_pos
    field_simp

end Reals

/-! ## Instances of the claims on a concrete model -/

/-- Instance of C1 on `demoSink` with input `[2]`. -/
theorem Predict_agrees_with_featurized_path_witness :
    demoSink.WF ∧ ([2] : List ℚ).length = demoSink.inputDim ∧
    ([7, 7] : List ℚ).length = demoSink.nFeatures ∧
    ([9] : List ℚ).length = demoSink.outputDim ∧
    ∃ v parameters z,
      demoSink.Predict (fun x => x) (fun x => x) [2] none = some ⟨some v, none, none⟩ ∧
      demoSink.Parameters none = .returned (demoSink, none) parameters ∧
      demoSink.Featurize (fun x => x) (fun x => x) [2] [7, 7] = some z ∧
      demoSink.NewLossDeriver.Predict (some parameters) z [9] = some v :=
  ⟨by decide, by decide, by decide, by decide,
    Predict_agrees_with_featurized_path (fun x => x) (fun x => x) demoSink [2] [7, 7] [9]
      (by decide) (by decide) (by decide) (by decide)⟩

/-- Instance of C2 on `demoSink` with parameters `[4, 5]` and input `[2]`. -/
theorem Predict_after_SetParameters_witness :
    demoSink.WF ∧ ([4, 5] : List ℚ).length = demoSink.nFeatures * demoSink.outputDim ∧
    ([2] : List ℚ).length = demoSink.inputDim ∧
    ∃ s' v,
      demoSink.SetParameters [4, 5] = .returned (s', [4, 5]) () ∧
      v.length = demoSink.outputDim ∧
      (∀ j, j < demoSink.outputDim →
        v[j]? = some (Finset.sum (Finset.range demoSink.nFeatures) (fun i =>
          (fun x : ℚ => x) (2 / (demoSink.nFeatures : ℚ))
            * (fun x : ℚ => x) (dotSpec [2] (demoSink.features.row i) + demoSink.b.getD i 0)
            * ([4, 5] : List ℚ).getD (i * demoSink.outputDim + j) 0))) ∧
      (∀ output : Option (List ℚ), (∀ o, output = some o → o.length = demoSink.outputDim) →
        s'.Predict (fun x => x) (fun x => x) [2] output
          = some ⟨some v, none, output.map (fun _ => v)⟩) :=
  ⟨by decide, by decide, by decide,
    Predict_after_SetParameters (fun x => x) (fun x => x) demoSink [4, 5] [2]
      (by decide) (by decide) (by decide)⟩

/-- Instance of C3 on `demoSink` with features `[1, 2]` and `dLossDPred = [3]`. -/
theorem Deriv_outer_product_witness :
    ([1, 2] : List ℚ).length = demoSink.nFeatures ∧
    ([3] : List ℚ).length = demoSink.outputDim ∧
    ∃ r : List ℚ,
      r.length = demoSink.nFeatures * demoSink.outputDim ∧
      (∀ i j, i < demoSink.nFeatures → j < demoSink.outputDim →
        r[i * demoSink.outputDim + j]?
          = some (([1, 2] : List ℚ).getD i 0 * ([3] : List ℚ).getD j 0)) ∧
      (∀ (parameters : Option (List ℚ)) (predOutput w : List ℚ),
        w.length = demoSink.nFeatures * demoSink.outputDim →
        demoSink.NewLossDeriver.Deriv parameters [1, 2] predOutput [3] w = some r) :=
  ⟨by decide, by decide, Deriv_outer_product demoSink [1, 2] [3] (by decide) (by decide)⟩

/-- Instance of C4 with two features, one output, and the weight `(1, 0)` perturbed by `1`. -/
theorem Deriv_is_exact_gradient_witness :
    ([4, 5] : List ℚ).length = 2 * 1 ∧ ([1, 2] : List ℚ).length = 2 ∧
    ([3] : List ℚ).length = 1 ∧ ([0, 0] : List ℚ).length = 2 * 1 ∧ 1 < 2 ∧ 0 < 1 ∧
    ∃ y y' dw : List ℚ,
      (⟨2, 1⟩ : lossDerivWrapper).Predict (some [4, 5]) [1, 2] [0] = some y ∧
      (⟨2, 1⟩ : lossDerivWrapper).Predict
        (some (([4, 5] : List ℚ).set (1 * 1 + 0) (([4, 5] : List ℚ).getD (1 * 1 + 0) 0 + 1)))
        [1, 2] [0] = some y' ∧
      (⟨2, 1⟩ : lossDerivWrapper).Deriv (some [4, 5]) [1, 2] y [3] [0, 0] = some dw ∧
      y'.getD 0 0 = y.getD 0 0 + 1 * ([1, 2] : List ℚ).getD 1 0 ∧
      (∀ m, m < 1 → m ≠ 0 → y'.getD m 0 = y.getD m 0) ∧
      Finset.sum (Finset.range 1)
          (fun m => ([3] : List ℚ).getD m 0 * (y'.getD m 0 - y.getD m 0))
        = 1 * dw.getD (1 * 1 + 0) 0 :=
  ⟨by decide, by decide, by decide, by decide, by decide, by decide,
  Deriv_is_exact_gradient ⟨2, 1⟩ [4, 5] [1, 2] [3] [0] [0] [0, 0] 1 1 0
    (by decide) (by decide) (by decide) (by decide) (by decide) (by decide)
    (by decide) (by decide)⟩

/-- Instance of C5 on `demoSink` with an input of the wrong length. -/
theorem Predict_error_iff_witness :
    demoSink.WF ∧
    ∃ r, demoSink.Predict (fun x => x) (fun x => x) [2, 2] (some [9]) = some r ∧
      (r.err ≠ none ↔
        (([2, 2] : List ℚ).length ≠ demoSink.inputDim ∨
          ∃ o, some ([9] : List ℚ) = some o ∧ o.length ≠ demoSink.outputDim)) ∧
      (r.err ≠ none → r.value = none ∧ r.buf = some [9]) ∧
      (r.err = none → ∃ v, r.value = some v ∧ v.length = demoSink.outputDim ∧
        r.buf = (some ([9] : List ℚ)).map (fun _ => v)) :=
  ⟨by decide, Predict_error_iff (fun x => x) (fun x => x) demoSink [2, 2] (some [9])
    (by decide)⟩

/-- Instance of C6 on `demoSink`. -/
theorem Parameters_SetParameters_roundtrip_witness :
    demoSink.WF ∧
    ((∃ q s', demoSink.Parameters none = .returned (demoSink, none) q ∧
      demoSink.SetParameters q = .returned (s', q) () ∧
      s'.featureWeights = demoSink.featureWeights ∧
      ∀ (cos sqrt : ℚ → ℚ) (input : List ℚ) (output : Option (List ℚ)),
        s'.Predict cos sqrt input output = demoSink.Predict cos sqrt input output) ∧
    (∀ p : List ℚ, p.length = demoSink.NumParameters →
      ∃ s', demoSink.SetParameters p = .returned (s', p) () ∧
        s'.Parameters none = .returned (s', none) p)) :=
  ⟨by decide, Parameters_SetParameters_roundtrip demoSink (by decide)⟩

/-- Instance of C9 on `demoSink` with input `[2]`. -/
theorem Featurize_closed_form_witness :
    demoSink.WF ∧ ([2] : List ℚ).length = demoSink.inputDim ∧
    ∃ z : List ℚ,
      z.length = demoSink.nFeatures ∧
      (∀ i, i < demoSink.nFeatures →
        z[i]? = some ((fun x : ℚ => x) (2 / (demoSink.nFeatures : ℚ))
          * (fun x : ℚ => x) (dotSpec [2] (demoSink.features.row i) + demoSink.b.getD i 0))) ∧
      (∀ (feature : List ℚ) (W : Dense ℚ), feature.length = demoSink.nFeatures →
        ({ demoSink with featureWeights := W } : Sink ℚ).Featurize
          (fun x => x) (fun x => x) [2] feature = some z) :=
  ⟨by decide, by decide,
    Featurize_closed_form (fun x => x) (fun x => x) demoSink [2] (by decide) (by decide)⟩

/-- Instance of C12 on `demoSink` with weights `[4, 5]`, `[1, 2]`, scalars `2`, `3` and
input `[2]`. -/
theorem Predict_linear_in_parameters_witness :
    demoSink.WF ∧ ([4, 5] : List ℚ).length = demoSink.nFeatures * demoSink.outputDim ∧
    ([1, 2] : List ℚ).length = demoSink.nFeatures * demoSink.outputDim ∧
    ([2] : List ℚ).length = demoSink.inputDim ∧
    ∃ v1 v2 v3 : List ℚ,
      (demoSink.SetParameters [4, 5]).state.1.Predict (fun x => x) (fun x => x) [2] none
        = some ⟨some v1, none, none⟩ ∧
      (demoSink.SetParameters [1, 2]).state.1.Predict (fun x => x) (fun x => x) [2] none
        = some ⟨some v2, none, none⟩ ∧
      (demoSink.SetParameters
          (List.zipWith (fun x y => 2 * x + 3 * y) [4, 5] [1, 2])).state.1.Predict
        (fun x => x) (fun x => x) [2] none = some ⟨some v3, none, none⟩ ∧
      v1.length = demoSink.outputDim ∧ v2.length = demoSink.outputDim ∧
      v3.length = demoSink.outputDim ∧
      (∀ j, j < demoSink.outputDim → v3.getD j 0 = 2 * v1.getD j 0 + 3 * v2.getD j 0) ∧
      ((0 : ℚ) ≤ 2 → (0 : ℚ) ≤ 3 → (2 : ℚ) + 3 = 1 →
        ∀ j, j < demoSink.outputDim → v3.getD j 0 ≤ 2 * v1.getD j 0 + 3 * v2.getD j 0) :=
  ⟨by decide, by decide, by decide, by decide,
    Predict_linear_in_parameters (fun x => x) (fun x => x) demoSink [4, 5] [1, 2] [2] 2 3
      (by decide) (by decide) (by decide) (by decide)⟩

/-- Instance of C13 with two features, one input, one output and a kernel that leaves
the matrix as it is. -/
theorem NewSink_zero_weights_witness :
    ∃ s, NewSink (3 : ℚ) (fun _ => 1 / 2) 2 ⟨fun _ _ m => m⟩ 1 1 = some s ∧
      ∀ input : List ℚ, input.length = 1 →
        s.Predict (fun x => x) (fun x => x) input none
          = some ⟨some (List.replicate 1 0), none, none⟩ := by
  obtain ⟨s, h1, _, _, _, h5⟩ :=
    NewSink_zero_weights (fun x : ℚ => x) (fun x => x) 3 (fun _ => 1 / 2) 2
      ⟨fun _ _ m => m⟩ 1 1
  exact ⟨s, h1, h5 (fun _ => ⟨rfl, rfl, rfl⟩)⟩

/-- Instance of C14 with two features and every draw equal to `1/2`. -/
theorem NewSink_phases_witness :
    (∀ i : Nat, (0 : ℝ) ≤ (fun _ : Nat => (1 / 2 : ℝ)) i ∧ (fun _ : Nat => (1 / 2 : ℝ)) i < 1) ∧
    ∃ s, NewSink Real.pi (fun _ => (1 / 2 : ℝ)) 2 ⟨fun _ _ m => m⟩ 1 1 = some s ∧
      s.b.length = 2 ∧
      ∀ i, i < 2 → ∃ x, s.b[i]? = some x ∧
        x = (fun _ : Nat => (1 / 2 : ℝ)) i * (2 * Real.pi) ∧
        0 ≤ x ∧ x < 2 * Real.pi :=
  ⟨fun _ => ⟨by norm_num, by norm_num⟩,
    NewSink_phases (fun _ => (1 / 2 : ℝ)) 2 ⟨fun _ _ m => m⟩ 1 1
      (fun _ => ⟨by norm_num, by norm_num⟩)⟩

/-- Instance of C15 on `demoSink` with input `[2]` and output buffer `[9]`. -/
theorem batchPredictor_agrees_with_Predict_witness :
    demoSink.WF ∧ ([2] : List ℚ).length = demoSink.inputDim ∧
    ([9] : List ℚ).length = demoSink.outputDim ∧
    ∃ batch : batchPredictor ℚ,
      (∀ (ι ο ρ : Type) (BatchPredict : batchPredictor ℚ → ι → ο → Nat → Nat → Nat → ρ)
          (inputs : ι) (outputs : ο),
        demoSink.PredictBatch BatchPredict inputs outputs
          = BatchPredict batch inputs outputs demoSink.inputDim demoSink.outputDim
              demoSink.GrainSize) ∧
      batch.NewPredictor = batch ∧
      ∃ v, batch.Predict (fun x => x) (fun x => x) [2] [9] = some v ∧
        demoSink.Predict (fun x => x) (fun x => x) [2] none = some ⟨some v, none, none⟩ :=
  ⟨by decide, by decide, by decide,
    batchPredictor_agrees_with_Predict (fun x => x) (fun x => x) demoSink [2] [9]
      (by decide) (by decide) (by decide)⟩

/-- Instance of C16 with two features, `x = [1]`, `y = [2]` and `w = [3]`. -/
theorem feature_product_shift_invariant_witness :
    0 < 2 ∧ ([1] : List ℝ).length = ([3] : List ℝ).length ∧
    ([2] : List ℝ).length = ([3] : List ℝ).length ∧
    (∀ b : ℝ, ∃ zx zy : ℝ,
      computeZ Real.cos [1] [3] b (Real.sqrt (2 / ((2 : Nat) : ℝ))) = some zx ∧
      computeZ Real.cos [2] [3] b (Real.sqrt (2 / ((2 : Nat) : ℝ))) = some zy ∧
      ((2 : Nat) : ℝ) * zx * zy
        = Real.cos (dotSpec [3] (List.zipWith (fun p q => p - q) [1] [2]))
          + Real.cos (dotSpec [3] (List.zipWith (fun p q => p + q) [1] [2]) + 2 * b)) ∧
    (1 / (2 * Real.pi)) * ∫ b in (0 : ℝ)..(2 * Real.pi),
        ((2 : Nat) : ℝ)
          * (computeZ Real.cos [1] [3] b (Real.sqrt (2 / ((2 : Nat) : ℝ)))).getD 0
          * (computeZ Real.cos [2] [3] b (Real.sqrt (2 / ((2 : Nat) : ℝ)))).getD 0
      = Real.cos (dotSpec [3] (List.zipWith (fun p q => p - q) [1] [2])) :=
  ⟨by decide, rfl, rfl,
    feature_product_shift_invariant 2 [1] [2] [3] (by decide) rfl rfl⟩

/-- Instance of C17 on `demoSink` with input `[2]` and output buffer `[9]`. -/
theorem Predict_index_safe_witness :
    demoSink.WF ∧ ([2] : List ℚ).length = demoSink.inputDim ∧
    (∀ o, some ([9] : List ℚ) = some o → o.length = demoSink.outputDim) ∧
    (∀ i, i < demoSink.features.Dims.1 →
      (∃ bi, demoSink.b[i]? = some bi) ∧
      (∃ row, demoSink.features.RowView i = some row ∧ row.length = ([2] : List ℚ).length ∧
        ∃ d, Dot [2] row = some d) ∧
      (∀ j, j < demoSink.featureWeights.Dims.2 →
        (∃ w, demoSink.featureWeights.At i j = some w) ∧
        j < ((some ([9] : List ℚ)).getD (List.replicate demoSink.outputDim 0)).length)) ∧
    ∃ v, demoSink.Predict (fun x => x) (fun x => x) [2] (some [9])
        = some ⟨some v, none, (some ([9] : List ℚ)).map (fun _ => v)⟩ ∧
      v.length = demoSink.outputDim :=
  ⟨by decide, by decide, fun o h => by cases h; rfl,
    Predict_index_safe (fun x => x) (fun x => x) demoSink [2] (some [9])
      (by decide) (by decide) (fun o h => by cases h; rfl)⟩

/-- Instance of C18 with two features, projections `[[1], [0]]`, phases `[0, 3]` and
input `[2]`. -/
theorem features_bounded_witness :
    0 < 2 ∧
    (⟨⟨fun _ _ m => m⟩, 2, 1, 1, ⟨2, 1, [1, 0]⟩, ⟨2, 1, [1, 1]⟩, [0, 3]⟩ : Sink ℝ).WF ∧
    ([2] : List ℝ).length = 1 ∧ ([0, 0] : List ℝ).length = 2 ∧
    ∃ z : List ℝ,
      Sink.Featurize Real.cos Real.sqrt
        (⟨⟨fun _ _ m => m⟩, 2, 1, 1, ⟨2, 1, [1, 0]⟩, ⟨2, 1, [1, 1]⟩, [0, 3]⟩ : Sink ℝ)
        [2] [0, 0] = some z ∧
      z.length = 2 ∧
      (∀ i, i < 2 → |z.getD i 0| ≤ Real.sqrt (2 / ((2 : Nat) : ℝ))) ∧
      Finset.sum (Finset.range 2) (fun i => z.getD i 0 ^ 2) ≤ 2 :=
  ⟨by decide, by decide, rfl, rfl,
    features_bounded
      (⟨⟨fun _ _ m => m⟩, 2, 1, 1, ⟨2, 1, [1, 0]⟩, ⟨2, 1, [1, 1]⟩, [0, 3]⟩ : Sink ℝ)
      [2] [0, 0] (by decide) (by decide) rfl rfl⟩

/-- Instance of C19 with features `[1, 2]`, `dLossDPred = [3]` and a buffer of three
entries, of which the last is not written. -/
theorem Deriv_depends_only_on_features_and_gradient_witness :
    ([1, 2] : List ℚ).length * ([3] : List ℚ).length ≤ ([7, 7, 7] : List ℚ).length ∧
    ∃ r, (⟨2, 1⟩ : lossDerivWrapper).Deriv none [1, 2] [] [3] [7, 7, 7] = some r ∧
      r.length = ([7, 7, 7] : List ℚ).length ∧
      (∀ i j, i < ([1, 2] : List ℚ).length → j < ([3] : List ℚ).length →
        r[i * ([3] : List ℚ).length + j]?
          = some (([1, 2] : List ℚ).getD i 0 * ([3] : List ℚ).getD j 0)) ∧
      (∀ k, ([1, 2] : List ℚ).length * ([3] : List ℚ).length ≤ k →
        r[k]? = ([7, 7, 7] : List ℚ)[k]?) ∧
      (∀ k, k < ([1, 2] : List ℚ).length * ([3] : List ℚ).length →
        ∃! ij : Nat × Nat, ij.1 < ([1, 2] : List ℚ).length ∧ ij.2 < ([3] : List ℚ).length ∧
          ij.1 * ([3] : List ℚ).length + ij.2 = k) :=
  ⟨by decide,
    (Deriv_depends_only_on_features_and_gradient ⟨2, 1⟩ ⟨5, 4⟩ none (some [8]) [] [6]
      [1, 2] [3] [7, 7, 7]).2.2 (by decide)⟩

end Kitchensink
